import Mathlib

/-! Complex number type of the PostgreSQL extension (`complex.c`)

A shallow embedding of `src/complex/complex.c`.

The C type `double` is read in two ways, and every function of the source is
translated once, over whichever reading it needs:

* `Float8`: an IEEE-754 binary64 value given by its 64-bit pattern.  This is the
  reading used for construction (`complex_make` and negative zero), for the
  textual codec (`complex_parse`, `complex_to_str`) and for the binary codec
  (`complex_recv`, `complex_send`).
* `ℚ`: exact arithmetic.  Every finite double is a rational number; the
  comparison macros and the arithmetic operators are read over `ℚ`, that is
  with the components taken as exact numbers and no rounding.

Library functions that the source calls but does not define (`strtod`,
`psprintf`, `pq_getmsgfloat8`, `pq_sendfloat8`, `sqrt`) are either parameters
of the embedding or modelled after their documented behaviour; each such
definition says so.
-/

namespace ComplexExt

/-! ## The C type `double` -/

/-- IEEE-754 binary64 value, as its 64-bit pattern: bit 63 is the sign, bits
62..52 the biased exponent, bits 51..0 the fraction. -/
structure Float8 where
  bits : Nat
  isLt : bits < 18446744073709551616
deriving DecidableEq

namespace Float8

/-- Sign bit. -/
def sign (x : Float8) : Bool := decide (9223372036854775808 ≤ x.bits)

/-- Biased exponent field (11 bits). -/
def expo (x : Float8) : Nat := x.bits / 4503599627370496 % 2048

/-- Fraction field (52 bits). -/
def frac (x : Float8) : Nat := x.bits % 4503599627370496

/-- NaN: exponent field all ones and a nonzero fraction. -/
def isNaN (x : Float8) : Bool := x.expo == 2047 && x.frac != 0

/-- Zero of either sign: every bit below the sign bit is clear. -/
def isZero (x : Float8) : Bool := x.bits % 9223372036854775808 == 0

/-- Positive zero, the value of the C constant `0` converted to `double`. -/
def posZero : Float8 := ⟨0, by decide⟩

/-- Negative zero. -/
def negZero : Float8 := ⟨9223372036854775808, by decide⟩

/-- The C operator `==` on doubles: false when either side is a NaN, true for
two zeros of any sign, and otherwise true exactly for identical patterns. -/
def eq (x y : Float8) : Bool :=
  !x.isNaN && !y.isNaN && (x.bits == y.bits || (x.isZero && y.isZero))

/-- The double with the given bit pattern (taken modulo `2 ^ 64`). -/
def ofBits (n : Nat) : Float8 := ⟨n % 18446744073709551616, Nat.mod_lt _ (by decide)⟩

/-- Unary minus on doubles: flips the sign bit. -/
def neg (x : Float8) : Float8 :=
  ⟨(x.bits + 9223372036854775808) % 18446744073709551616, Nat.mod_lt _ (by decide)⟩

end Float8

/-- What `complex_make` and `complex_conj` use of the type `double`: the
constant `0`, the test `x == 0` and unary minus. -/
class CDouble (α : Type) where
  zero : α
  eqZero : α → Bool
  neg : α → α

instance : CDouble Float8 where
  zero := Float8.posZero
  eqZero x := Float8.eq x Float8.posZero
  neg := Float8.neg

instance : CDouble ℚ where
  zero := 0
  eqZero q := decide (q = 0)
  neg q := -q

/-! ## The value type and its constructor -/

/-- The struct `Complex` of the source, with components `a` and `b`. -/
structure Complex (α : Type) where
  a : α
  b : α
deriving DecidableEq

/-- The function `complex_make`: stores both components, then overwrites a
component that compares equal to zero with the constant `0`. -/
def complex_make {α : Type} [CDouble α] (a b : α) : Complex α :=
  let c : Complex α := ⟨a, b⟩
  let c : Complex α := if CDouble.eqZero c.a then ⟨CDouble.zero, c.b⟩ else c
  let c : Complex α := if CDouble.eqZero c.b then ⟨c.a, CDouble.zero⟩ else c
  c

/-! ## Models of the C library: `strtod` and the `%g` conversion -/

/-- Floor of the logarithm of `n` in base `b`, by repeated division; `fuel`
bounds the number of divisions (`fuel = n` always suffices for `b ≥ 2`). -/
def ilog (b : Nat) : Nat → Nat → Nat
  | 0, _ => 0
  | fuel + 1, n => if n < b then 0 else 1 + ilog b fuel (n / b)

/-- Floor of the logarithm in base `b` of the positive rational `n / d`. -/
def flog (b n d : Nat) : Int :=
  if d ≤ n then (ilog b (n / d) (n / d) : Nat)
  else
    let t := ilog b (d / n) (d / n)
    if d ≤ n * b ^ t then -(t : Int) else -((t : Int) + 1)

/-- Integer nearest to `n / d`, ties to the even neighbour. -/
def roundNE (n d : Nat) : Nat :=
  let q := n / d
  let r := n % d
  if 2 * r < d then q else if d < 2 * r then q + 1 else if q % 2 = 0 then q else q + 1

/-- Integer nearest to `n / d * b ^ s`, ties to even, for an integer `s`. -/
def roundScaled (b : Nat) (s : Int) (n d : Nat) : Nat :=
  if 0 ≤ s then roundNE (n * b ^ s.toNat) d else roundNE n (d * b ^ (-s).toNat)

namespace Float8

/-- The double nearest to `± n / d` (`d > 0`), ties to even, as the default
rounding mode of IEEE-754 prescribes: gradual underflow below `2 ^ (-1022)`,
infinity on overflow. -/
def ofRat (neg : Bool) (n d : Nat) : Float8 :=
  let s : Nat := if neg then 9223372036854775808 else 0
  if n = 0 then ⟨s % 18446744073709551616, Nat.mod_lt _ (by decide)⟩
  else
    let e : Int := max (flog 2 n d) (-1022)
    let m := roundScaled 2 (52 - e) n d
    let mag := min ((e + 1022).toNat * 4503599627370496 + m) 9218868437227405312
    ⟨(mag + s) % 18446744073709551616, Nat.mod_lt _ (by decide)⟩

/-- Magnitude of a finite double as a fraction `(n, d)`: `frac * 2 ^ (-1074)`
for a subnormal, `(2 ^ 52 + frac) * 2 ^ (expo - 1075)` otherwise. -/
def magnitude (x : Float8) : Nat × Nat :=
  if x.expo = 0 then (x.frac, 2 ^ 1074)
  else if 1075 ≤ x.expo then ((4503599627370496 + x.frac) * 2 ^ (x.expo - 1075), 1)
  else (4503599627370496 + x.frac, 2 ^ (1075 - x.expo))

/-- Positive or negative infinity. -/
def inf (neg : Bool) : Float8 :=
  if neg then ⟨18442240474082181120, by decide⟩ else ⟨9218868437227405312, by decide⟩

/-- The default quiet NaN, with the given sign bit. -/
def nan (neg : Bool) : Float8 :=
  if neg then ⟨18444492273895866368, by decide⟩ else ⟨9221120237041090560, by decide⟩

end Float8

/-- The C function `isspace` in the C locale. -/
def isspace (c : Char) : Bool :=
  c == ' ' || c == '\t' || c == '\n' || c == '\x0b' || c == '\x0c' || c == '\r'

/-- Decimal digit. -/
def isDigit (c : Char) : Bool := 48 ≤ c.toNat && c.toNat ≤ 57

/-- Hexadecimal digit. -/
def isHexDigit (c : Char) : Bool :=
  isDigit c || (65 ≤ c.toNat && c.toNat ≤ 70) || (97 ≤ c.toNat && c.toNat ≤ 102)

/-- Value of a hexadecimal (or decimal) digit. -/
def hexVal (c : Char) : Nat :=
  if isDigit c then c.toNat - 48 else if c.toNat ≤ 70 then c.toNat - 55 else c.toNat - 87

/-- Character of an n-char-sequence: a digit, a letter or the underscore. -/
def isNChar (c : Char) : Bool :=
  isDigit c || (65 ≤ c.toNat && c.toNat ≤ 90) || (97 ≤ c.toNat && c.toNat ≤ 122) || c == '_'

/-- The letter `lo` (lower case) in either case. -/
def isLetter (lo : Char) (c : Char) : Bool := c == lo || c.toNat + 32 == lo.toNat

/-- Longest initial run of characters satisfying `p`, and what follows it. -/
def spanP (p : Char → Bool) : List Char → List Char × List Char
  | [] => ([], [])
  | c :: cs => if p c then (c :: (spanP p cs).1, (spanP p cs).2) else ([], c :: cs)

/-- Number written by a digit string in base `b`. -/
def digitsVal (b : Nat) (ds : List Char) : Nat :=
  ds.foldl (fun acc c => acc * b + hexVal c) 0

/-- An optional sign: whether it is a minus, and what follows it. -/
def scanSign : List Char → Bool × List Char
  | '-' :: t => (true, t)
  | '+' :: t => (false, t)
  | s => (false, s)

/-- An optional exponent part: the marker letter, an optional sign and a
nonempty run of decimal digits.  Nothing is consumed unless all of it is
there. -/
def scanExp (marker : Char) (s : List Char) : Int × List Char :=
  match s with
  | [] => (0, s)
  | m :: t =>
    if isLetter marker m then
      let sg := scanSign t
      let ds := spanP isDigit sg.2
      if ds.1.isEmpty then (0, s)
      else ((if sg.1 then -(digitsVal 10 ds.1 : Int) else (digitsVal 10 ds.1 : Int)), ds.2)
    else (0, s)

/-- A significand in base `b`: digits with at most one radix point and at least
one digit.  Returns the digits read as an integer, the number of digits after
the point, and what follows. -/
def scanSignificand (isDig : Char → Bool) (b : Nat) (s : List Char) :
    Option (Nat × Nat × List Char) :=
  let i := spanP isDig s
  let f : List Char × List Char :=
    match i.2 with
    | '.' :: t => spanP isDig t
    | r => ([], r)
  if i.1.isEmpty && f.1.isEmpty then none
  else some (digitsVal b (i.1 ++ f.1), f.1.length, f.2)

/-- Hexadecimal floating constant after the sign: `0x`, a hexadecimal
significand and an optional binary exponent. -/
def scanHex (neg : Bool) (s : List Char) : Option (Float8 × List Char) :=
  match s with
  | '0' :: x :: t =>
    if isLetter 'x' x then
      match scanSignificand isHexDigit 16 t with
      | none => none
      | some (n, k, r) =>
        let e := scanExp 'p' r
        let s2 : Int := e.1 - 4 * (k : Int)
        some (if 0 ≤ s2 then Float8.ofRat neg (n * 2 ^ s2.toNat) 1
              else Float8.ofRat neg n (2 ^ (-s2).toNat), e.2)
    else none
  | _ => none

/-- Decimal floating constant after the sign: a decimal significand and an
optional decimal exponent. -/
def scanDec (neg : Bool) (s : List Char) : Option (Float8 × List Char) :=
  match scanSignificand isDigit 10 s with
  | none => none
  | some (n, k, r) =>
    let e := scanExp 'e' r
    let s10 : Int := e.1 - (k : Int)
    some (if 0 ≤ s10 then Float8.ofRat neg (n * 10 ^ s10.toNat) 1
          else Float8.ofRat neg n (10 ^ (-s10).toNat), e.2)

/-- The words `INF` and `INFINITY`, ignoring case. -/
def scanInf (neg : Bool) (s : List Char) : Option (Float8 × List Char) :=
  match s with
  | c1 :: c2 :: c3 :: t =>
    if isLetter 'i' c1 && isLetter 'n' c2 && isLetter 'f' c3 then
      match t with
      | d1 :: d2 :: d3 :: d4 :: d5 :: u =>
        if isLetter 'i' d1 && isLetter 'n' d2 && isLetter 'i' d3 && isLetter 't' d4
            && isLetter 'y' d5 then some (Float8.inf neg, u)
        else some (Float8.inf neg, t)
      | _ => some (Float8.inf neg, t)
    else none
  | _ => none

/-- The word `NAN`, ignoring case, optionally followed by a parenthesised
n-char-sequence (whose content is not used for the payload). -/
def scanNan (neg : Bool) (s : List Char) : Option (Float8 × List Char) :=
  match s with
  | c1 :: c2 :: c3 :: t =>
    if isLetter 'n' c1 && isLetter 'a' c2 && isLetter 'n' c3 then
      match t with
      | '(' :: u =>
        match (spanP isNChar u).2 with
        | ')' :: v => some (Float8.nan neg, v)
        | _ => some (Float8.nan neg, t)
      | _ => some (Float8.nan neg, t)
    else none
  | _ => none

/-- The subject sequence of `strtod` (ISO C 7.22.1.3), read at the first
character that is not white space: an optional sign, then a hexadecimal
constant, a decimal constant, an infinity or a NaN, the longest that is
there.  Returns the value, correctly rounded, and the text that follows the
subject sequence; `none` when there is no subject sequence. -/
def strtod_subject (s : List Char) : Option (Float8 × List Char) :=
  let sg := scanSign s
  (scanHex sg.1 sg.2).orElse fun _ =>
  (scanDec sg.1 sg.2).orElse fun _ =>
  (scanInf sg.1 sg.2).orElse fun _ =>
  scanNan sg.1 sg.2

/-- Digit string without its trailing zeros. -/
def stripZeros (ds : List Char) : List Char :=
  (ds.reverse.dropWhile (fun c => c == '0')).reverse

/-- Decimal digits of `n`, padded on the left with zeros to `w` digits. -/
def digitsPad (w n : Nat) : List Char :=
  let ds := Nat.toDigits 10 n
  List.replicate (w - ds.length) '0' ++ ds

/-- The conversion `%.*g` of `printf` for a double (ISO C 7.21.6.1), with
precision `prec`: the value is rounded to `P` significant decimal digits
(`P = prec`, or 1 when `prec = 0`), ties to even; with `X` the decimal exponent
of the rounded value, style `f` is used when `-4 ≤ X < P` and style `e`
otherwise; trailing zeros of the fraction are removed, and the decimal point
with them when no fraction is left. -/
def fmt_g (prec : Nat) (x : Float8) : List Char :=
  let sgn : List Char := if x.sign then ['-'] else []
  if x.expo = 2047 then sgn ++ (if x.frac = 0 then ['i', 'n', 'f'] else ['n', 'a', 'n'])
  else
    let P : Nat := if prec = 0 then 1 else prec
    let nd := x.magnitude
    let X0 : Int := if nd.1 = 0 then 0 else flog 10 nd.1 nd.2
    let D0 := roundScaled 10 ((P : Int) - 1 - X0) nd.1 nd.2
    let X : Int := if 10 ^ P ≤ D0 then X0 + 1 else X0
    let D : Nat := if 10 ^ P ≤ D0 then D0 / 10 else D0
    let ds := digitsPad P D
    if X < -4 ∨ (P : Int) ≤ X then
      let fr := stripZeros ds.tail
      sgn ++ ds.take 1 ++ (if fr.isEmpty then [] else '.' :: fr)
        ++ ['e', if X < 0 then '-' else '+'] ++ digitsPad 2 X.natAbs
    else if 0 ≤ X then
      let fr := stripZeros (ds.drop (X.toNat + 1))
      sgn ++ ds.take (X.toNat + 1) ++ (if fr.isEmpty then [] else '.' :: fr)
    else
      let fr := stripZeros (List.replicate ((-X).toNat - 1) '0' ++ ds)
      sgn ++ ['0'] ++ (if fr.isEmpty then [] else '.' :: fr)


/-! ## Error reports -/

/-- The SQLSTATE classes that the source passes to `errcode`, and the one that
`pq_getmsgfloat8` raises when the message is too short. -/
inductive ErrCode where
  | ERRCODE_INVALID_TEXT_REPRESENTATION
  | ERRCODE_INVALID_PARAMETER_VALUE
  | ERRCODE_PROTOCOL_VIOLATION
deriving DecidableEq

/-- What `ereport(ERROR, (errcode(..), errmsg(..)))` raises; the call does not
return, which the embedding renders as the error side of `Except`. -/
structure ErrorReport where
  errcode : ErrCode
  errmsg : String
deriving DecidableEq

/-- The report raised by `complex_parse` for a missing delimiter. -/
def err_complex : ErrorReport :=
  ⟨.ERRCODE_INVALID_TEXT_REPRESENTATION, "Invalid input syntax for type complex"⟩

/-- The report raised by `double_parse`. -/
def err_double : ErrorReport :=
  ⟨.ERRCODE_INVALID_TEXT_REPRESENTATION, "Invalid input syntax for type double"⟩

/-- The report raised by `ensure_end_input`. -/
def err_end_input : ErrorReport :=
  ⟨.ERRCODE_INVALID_TEXT_REPRESENTATION, "Could not parse temporal value"⟩

/-- The report raised by `complex_div`. -/
def err_div : ErrorReport :=
  ⟨.ERRCODE_INVALID_PARAMETER_VALUE, "Can only divide by a non-zero complex number"⟩

/-- The report raised by `pq_getmsgfloat8` on a short message. -/
def err_insufficient : ErrorReport :=
  ⟨.ERRCODE_PROTOCOL_VIOLATION, "insufficient data left in message"⟩

/-! ## Textual codec

A C string is the list of its characters before the terminating NUL; the
pointer `*str` is the suffix still to be read. -/

/-- The character `**str`: the head of the suffix, NUL at its end. -/
def cur (str : List Char) : Char := str.headD (Char.ofNat 0)

/-- The function `p_whitespace`: advances over spaces, newlines, carriage
returns and tabs. -/
def p_whitespace : List Char → List Char
  | [] => []
  | c :: cs =>
    if c = ' ' ∨ c = '\n' ∨ c = '\r' ∨ c = '\t' then p_whitespace cs else c :: cs

/-- The function `ensure_end_input`: when `end_` is set, skips white space and
raises an error unless the string ends there. -/
def ensure_end_input (str : List Char) (end_ : Bool) : Except ErrorReport (List Char) :=
  if end_ then
    if cur (p_whitespace str) ≠ Char.ofNat 0 then .error err_end_input
    else .ok (p_whitespace str)
  else .ok str

/-- The function `p_oparen`: skips white space, then consumes an opening
parenthesis if there is one.  Returns the flag and the new `*str`. -/
def p_oparen (str : List Char) : Bool × List Char :=
  match p_whitespace str with
  | '(' :: t => (true, t)
  | s => (false, s)

/-- The function `p_cparen`: as `p_oparen`, for a closing parenthesis. -/
def p_cparen (str : List Char) : Bool × List Char :=
  match p_whitespace str with
  | ')' :: t => (true, t)
  | s => (false, s)

/-- The function `p_comma`: as `p_oparen`, for a comma. -/
def p_comma (str : List Char) : Bool × List Char :=
  match p_whitespace str with
  | ',' :: t => (true, t)
  | s => (false, s)

/-- The C library function `strtod`, over a recogniser `subj` of subject
sequences: white space (as `isspace` has it) is skipped, then `subj` reads the
subject sequence.  The result is the converted value and `nextstr`; `none`
stands for no conversion, where C leaves `nextstr` equal to `str`. -/
def strtod {α : Type} (subj : List Char → Option (α × List Char)) (str : List Char) :
    Option (α × List Char) :=
  subj (str.dropWhile isspace)

/-- The function `double_parse`: calls `strtod` and raises an error when
nothing was converted. -/
def double_parse {α : Type} (subj : List Char → Option (α × List Char)) (str : List Char) :
    Except ErrorReport (α × List Char) :=
  match strtod subj str with
  | none => .error err_double
  | some (result, nextstr) => .ok (result, nextstr)

/-- The function `complex_parse`.  Returns the value and the final `*str`. -/
def complex_parse {α : Type} [CDouble α] (subj : List Char → Option (α × List Char))
    (str : List Char) : Except ErrorReport (Complex α × List Char) :=
  match p_oparen str with
  | (false, _) => .error err_complex
  | (true, s1) =>
    match double_parse subj s1 with
    | .error e => .error e
    | .ok (a, s2) =>
      match p_comma s2 with
      | (false, _) => .error err_complex
      | (true, s3) =>
        match double_parse subj s3 with
        | .error e => .error e
        | .ok (b, s4) =>
          match p_cparen s4 with
          | (false, _) => .error err_complex
          | (true, s5) =>
            match ensure_end_input s5 true with
            | .error e => .error e
            | .ok s6 => .ok (complex_make a b, s6)

/-- The constant `DBL_DIG` of `float.h`, which the source does not define: the
number of decimal digits that survive a round trip through a double, 15 for
IEEE-754 binary64. -/
def DBL_DIG : Nat := 15

/-- The function `complex_to_str`: `psprintf` with the format `(%.*g, %.*g)`
and precision `DBL_DIG` for both components; `fmt` is the conversion `%.*g`. -/
def complex_to_str {α : Type} (fmt : Nat → α → List Char) (c : Complex α) : List Char :=
  ['('] ++ fmt DBL_DIG c.a ++ [',', ' '] ++ fmt DBL_DIG c.b ++ [')']

/-- The function `complex_in`. -/
def complex_in {α : Type} [CDouble α] (subj : List Char → Option (α × List Char))
    (str : List Char) : Except ErrorReport (Complex α) :=
  (complex_parse subj str).map Prod.fst

/-- The function `complex_out`. -/
def complex_out {α : Type} (fmt : Nat → α → List Char) (c : Complex α) : List Char :=
  complex_to_str fmt c

/-- The function `complex_cast_from_text`: `textout` yields the characters of
the text value, which are parsed. -/
def complex_cast_from_text {α : Type} [CDouble α] (subj : List Char → Option (α × List Char))
    (txt : List Char) : Except ErrorReport (Complex α) :=
  (complex_parse subj txt).map Prod.fst

/-- The function `complex_cast_to_text`. -/
def complex_cast_to_text {α : Type} (fmt : Nat → α → List Char) (c : Complex α) : List Char :=
  complex_to_str fmt c

/-! ## Binary codec

A message buffer is the list of the bytes still to be read (for input) or
written so far (for output); a byte is a natural number taken modulo 256. -/

/-- The function `pq_getmsgfloat8` of PostgreSQL (`pqformat.c`), which the
source calls: the next eight bytes, most significant first, are the bit
pattern of the double; a shorter message is an error. -/
def pq_getmsgfloat8 (buf : List Nat) : Except ErrorReport (Float8 × List Nat) :=
  match buf with
  | b0 :: b1 :: b2 :: b3 :: b4 :: b5 :: b6 :: b7 :: rest =>
    .ok (⟨((((((((b0 % 256) * 256 + b1 % 256) * 256 + b2 % 256) * 256 + b3 % 256) * 256
          + b4 % 256) * 256 + b5 % 256) * 256 + b6 % 256) * 256 + b7 % 256)
          % 18446744073709551616, Nat.mod_lt _ (by decide)⟩, rest)
  | _ => .error err_insufficient

/-- The function `pq_sendfloat8` of PostgreSQL (`pqformat.c`): appends the bit
pattern of the double as eight bytes, most significant first. -/
def pq_sendfloat8 (buf : List Nat) (f : Float8) : List Nat :=
  buf ++ [f.bits / 72057594037927936 % 256, f.bits / 281474976710656 % 256,
    f.bits / 1099511627776 % 256, f.bits / 4294967296 % 256, f.bits / 16777216 % 256,
    f.bits / 65536 % 256, f.bits / 256 % 256, f.bits % 256]

/-- The function `complex_recv`: reads the two components from the message and
stores them in a freshly allocated struct.  Returns the value and the unread
rest of the message. -/
def complex_recv (buf : List Nat) : Except ErrorReport (Complex Float8 × List Nat) :=
  match pq_getmsgfloat8 buf with
  | .error e => .error e
  | .ok (a, buf1) =>
    match pq_getmsgfloat8 buf1 with
    | .error e => .error e
    | .ok (b, buf2) => .ok (⟨a, b⟩, buf2)

/-- The function `complex_send`: the payload of the returned `bytea`, that is
the buffer after `pq_begintypsend` and the two `pq_sendfloat8` calls. -/
def complex_send (c : Complex Float8) : List Nat :=
  let buf : List Nat := []
  let buf := pq_sendfloat8 buf c.a
  let buf := pq_sendfloat8 buf c.b
  buf

/-! ## Constructor and accessors -/

/-- The function `complex_constructor`. -/
def complex_constructor {α : Type} [CDouble α] (a b : α) : Complex α := complex_make a b

/-- The function `complex_re`. -/
def complex_re {α : Type} (c : Complex α) : α := c.a

/-- The function `complex_im`. -/
def complex_im {α : Type} (c : Complex α) : α := c.b

/-- The function `complex_conj`. -/
def complex_conj {α : Type} [CDouble α] (c : Complex α) : Complex α :=
  complex_make c.a (CDouble.neg c.b)

/-! ## Tolerance comparator, over exact numbers -/

/-- The macro `EPSILON`, `1.0E-06`. -/
def EPSILON : ℚ := 1 / 1000000

/-- The macro `FPzero`. -/
def FPzero (A : ℚ) : Bool := decide (|A| ≤ EPSILON)

/-- The macro `FPeq`. -/
def FPeq (A B : ℚ) : Bool := decide (|A - B| ≤ EPSILON)

/-- The macro `FPne`. -/
def FPne (A B : ℚ) : Bool := decide (|A - B| > EPSILON)

/-- The macro `FPlt`. -/
def FPlt (A B : ℚ) : Bool := decide (B - A > EPSILON)

/-- The macro `FPle`. -/
def FPle (A B : ℚ) : Bool := decide (A - B ≤ EPSILON)

/-- The macro `FPgt`. -/
def FPgt (A B : ℚ) : Bool := decide (A - B > EPSILON)

/-- The macro `FPge`. -/
def FPge (A B : ℚ) : Bool := decide (B - A ≤ EPSILON)

/-! ## Operators, over exact numbers -/

/-- The function `complex_eq_internal`. -/
def complex_eq_internal (c d : Complex ℚ) : Bool := FPeq c.a d.a && FPeq c.b d.b

/-- The function `complex_eq`. -/
def complex_eq (c d : Complex ℚ) : Bool := complex_eq_internal c d

/-- The function `complex_ne`. -/
def complex_ne (c d : Complex ℚ) : Bool := !complex_eq_internal c d

/-- The function `complex_left`. -/
def complex_left (c d : Complex ℚ) : Bool := FPlt c.a d.a

/-- The function `complex_right`. -/
def complex_right (c d : Complex ℚ) : Bool := FPgt c.a d.a

/-- The function `complex_below`. -/
def complex_below (c d : Complex ℚ) : Bool := FPlt c.b d.b

/-- The function `complex_above`. -/
def complex_above (c d : Complex ℚ) : Bool := FPgt c.b d.b

/-- The function `complex_add`. -/
def complex_add (c d : Complex ℚ) : Complex ℚ := complex_make (c.a + d.a) (c.b + d.b)

/-- The function `complex_sub`. -/
def complex_sub (c d : Complex ℚ) : Complex ℚ := complex_make (c.a - d.a) (c.b - d.b)

/-- The function `complex_mult`. -/
def complex_mult (c d : Complex ℚ) : Complex ℚ := complex_make (c.a * d.a) (c.b * d.b)

/-- The function `complex_div`: raises an error when both components of the
divisor pass `FPzero`, and otherwise divides by the squared modulus. -/
def complex_div (c d : Complex ℚ) : Except ErrorReport (Complex ℚ) :=
  if FPzero d.a && FPzero d.b then .error err_div
  else
    let div : ℚ := (d.a * d.a) + (d.b * d.b)
    .ok (complex_make ((c.a * d.a + c.b * d.b) / div) ((c.b * d.a - c.a * d.b) / div))

/-- The function `complex_dist_internal`; `sqrt` is the square root of the C
library, a parameter of the embedding. -/
def complex_dist_internal (sqrt : ℚ → ℚ) (c d : Complex ℚ) : ℚ :=
  let x : ℚ := |c.a - d.a|
  let y : ℚ := |c.b - d.b|
  let xy : ℚ × ℚ := if x < y then (y, x) else (x, y)
  let x := xy.1
  let y := xy.2
  if FPzero y then x
  else
    let yx : ℚ := y / x
    let result : ℚ := sqrt (1 + (yx * yx))
    result

/-- The function `complex_dist`. -/
def complex_dist (sqrt : ℚ → ℚ) (c d : Complex ℚ) : ℚ := complex_dist_internal sqrt c d

/-! ## Vocabulary of the statements about the textual codec -/

/-- A white-space run in the sense of the grammar of the type: only spaces,
tabs, newlines and carriage returns. -/
def wsRun (w : List Char) : Prop := ∀ c ∈ w, c = ' ' ∨ c = '\t' ∨ c = '\n' ∨ c = '\r'

/-- The characters that can follow a number in the grammar of the type: white
space, the comma and the closing parenthesis. -/
def delimiter (c : Char) : Prop :=
  c = ' ' ∨ c = '\t' ∨ c = '\n' ∨ c = '\r' ∨ c = ',' ∨ c = ')'

/-- The numeral `r` is accepted by `strtod` with value `v`: whenever `r` is
followed by a delimiter, `strtod` converts exactly `r`, returns `v`, and
leaves `nextstr` at the delimiter. -/
def Accepts {α : Type} (subj : List Char → Option (α × List Char)) (r : List Char) (v : α) :
    Prop :=
  ∀ (c : Char) (rest : List Char), delimiter c → strtod subj (r ++ c :: rest) = some (v, c :: rest)

/-- A finite double: the exponent field is not all ones. -/
def Float8.isFinite (x : Float8) : Bool := x.expo != 2047

/-- The variables `x` and `y` of `complex_dist_internal` after the swap: the
first lines of its body, up to the test `FPzero(y)`. -/
def complex_dist_xy (c d : Complex ℚ) : ℚ × ℚ :=
  let x : ℚ := |c.a - d.a|
  let y : ℚ := |c.b - d.b|
  if x < y then (y, x) else (x, y)

/-! ## Construction: negative zero -/

/-- A double compares equal to the constant `0` exactly when it is one of the
two zeros. -/
theorem Float8.eq_posZero_iff (x : Float8) :
    Float8.eq x Float8.posZero = true ↔ x = Float8.posZero ∨ x = Float8.negZero := by
  constructor
  · intro h
    obtain ⟨n, hn⟩ := x
    simp only [Float8.eq, Float8.isNaN, Float8.isZero, Float8.expo, Float8.frac, Float8.posZero,
      Float8.negZero, Float8.mk.injEq, Bool.and_eq_true, Bool.or_eq_true, Bool.not_eq_true',
      beq_iff_eq] at h ⊢
    rcases h with ⟨-, h | ⟨h, -⟩⟩ <;> omega
  · rintro (rfl | rfl) <;> decide

/-- C6: `complex_make` normalizes negative zero.  For all doubles `a` and `b`, a
component that compares equal to zero (under `==`, which holds exactly for
the two zeros) is stored as positive zero and any other component is stored
unchanged; so `complex_make(-0.0, -0.0)` has the same bits as
`complex_make(0.0, 0.0)`, and the two are formatted to the same string, which
is `(0, 0)` under the `%g` conversion. -/
theorem complex_make_normalizes_negative_zero :
    (∀ a b : Float8,
      (complex_make a b).a = (if Float8.eq a Float8.posZero then Float8.posZero else a) ∧
      (complex_make a b).b = (if Float8.eq b Float8.posZero then Float8.posZero else b)) ∧
    (∀ x : Float8,
      Float8.eq x Float8.posZero = true ↔ x = Float8.posZero ∨ x = Float8.negZero) ∧
    complex_make Float8.negZero Float8.negZero = complex_make Float8.posZero Float8.posZero ∧
    complex_make Float8.negZero Float8.negZero = ⟨Float8.posZero, Float8.posZero⟩ ∧
    (∀ fmt : Nat → Float8 → List Char,
      complex_to_str fmt (complex_make Float8.negZero Float8.negZero)
        = complex_to_str fmt (complex_make Float8.posZero Float8.posZero)) ∧
    complex_to_str fmt_g (complex_make Float8.negZero Float8.negZero)
      = ['(', '0', ',', ' ', '0', ')'] := by
  refine ⟨?_, Float8.eq_posZero_iff, by decide, by decide, fun fmt => ?_, by decide!⟩
  · intro a b
    simp only [complex_make, CDouble.eqZero, CDouble.zero]
    constructor <;> split <;> split <;> simp_all
  · have h : complex_make Float8.negZero Float8.negZero
        = complex_make Float8.posZero Float8.posZero := by decide
    rw [h]

/-! ## Binary codec -/

/-- Reading back the eight bytes that `pq_sendfloat8` appends gives the double
that was sent, and leaves what followed them. -/
theorem pq_getmsgfloat8_sendfloat8 (f : Float8) (rest : List Nat) :
    pq_getmsgfloat8 (pq_sendfloat8 [] f ++ rest) = .ok (f, rest) := by
  obtain ⟨n, hn⟩ := f
  simp only [pq_sendfloat8, pq_getmsgfloat8, List.nil_append, List.cons_append, Nat.mod_mod]
  congr 3
  omega

/-- The eight bytes that `pq_sendfloat8` appends are the base-256 digits of the
bit pattern, most significant first. -/
theorem pq_sendfloat8_big_endian (f : Float8) :
    (pq_sendfloat8 [] f).length = 8 ∧ (∀ x ∈ pq_sendfloat8 [] f, x < 256) ∧
    (pq_sendfloat8 [] f).foldl (fun acc x => acc * 256 + x) 0 = f.bits := by
  obtain ⟨n, hn⟩ := f
  refine ⟨rfl, ?_, ?_⟩
  · intro x hx
    simp only [pq_sendfloat8, List.nil_append, List.mem_cons, List.mem_singleton,
      List.not_mem_nil, or_false] at hx
    omega
  · simp only [pq_sendfloat8, List.nil_append, List.foldl_cons, List.foldl_nil]
    omega

/-- The payload of `complex_send` is the bytes of the real part followed by
those of the imaginary part. -/
theorem complex_send_eq (c : Complex Float8) :
    complex_send c = pq_sendfloat8 [] c.a ++ pq_sendfloat8 [] c.b := by
  simp [complex_send, pq_sendfloat8]

/-- Decoding what `complex_send` wrote gives back the same struct. -/
theorem complex_recv_send (c : Complex Float8) :
    complex_recv (complex_send c) = .ok (c, []) := by
  have h2 := pq_getmsgfloat8_sendfloat8 c.b []
  rw [List.append_nil] at h2
  simp only [complex_recv, complex_send_eq, pq_getmsgfloat8_sendfloat8, h2]

/-- C7 (evaluation of the code): `complex_recv` stores the two doubles it reads
as they are, without going through `complex_make`.  On the sixteen bytes
`80 00 00 00 00 00 00 00 80 00 00 00 00 00 00 00`, the wire encoding of
`(-0.0, -0.0)`, it returns a value whose components are both negative zero,
which differs from `complex_make(-0.0, -0.0)`. -/
theorem complex_recv_keeps_negative_zero :
    complex_recv [128, 0, 0, 0, 0, 0, 0, 0, 128, 0, 0, 0, 0, 0, 0, 0]
      = .ok (⟨Float8.negZero, Float8.negZero⟩, []) ∧
    complex_send ⟨Float8.negZero, Float8.negZero⟩
      = [128, 0, 0, 0, 0, 0, 0, 0, 128, 0, 0, 0, 0, 0, 0, 0] ∧
    (⟨Float8.negZero, Float8.negZero⟩ : Complex Float8)
      ≠ complex_make Float8.negZero Float8.negZero ∧
    complex_make Float8.negZero Float8.negZero = ⟨Float8.posZero, Float8.posZero⟩ := by
  refine ⟨by rfl, by decide, by decide, by decide⟩

/-- C8: binary round trip.  For every value `c` (so in particular for every
value produced by `complex_make`), `complex_send` writes sixteen bytes: the
first eight are the base-256 digits, most significant first, of the bit
pattern of the real part, the last eight those of the imaginary part; and
`complex_recv` applied to these bytes returns `c` itself with nothing left
unread.  For `complex_make(3.5, -2.25)` the bytes are
`40 0C 00 00 00 00 00 00 C0 02 00 00 00 00 00 00`; the two doubles are given by
their bit patterns, which are those that `strtod` returns for `3.5` and
`-2.25`. -/
theorem complex_binary_round_trip :
    (∀ c : Complex Float8,
      (complex_send c).length = 16 ∧
      (∀ x ∈ complex_send c, x < 256) ∧
      ((complex_send c).take 8).foldl (fun acc x => acc * 256 + x) 0 = c.a.bits ∧
      ((complex_send c).drop 8).foldl (fun acc x => acc * 256 + x) 0 = c.b.bits ∧
      complex_recv (complex_send c) = .ok (c, [])) ∧
    (∀ a b : Float8,
      complex_recv (complex_send (complex_make a b)) = .ok (complex_make a b, [])) ∧
    complex_send (complex_make (Float8.ofBits 0x400C000000000000) (Float8.ofBits 0xC002000000000000))
      = [64, 12, 0, 0, 0, 0, 0, 0, 192, 2, 0, 0, 0, 0, 0, 0] ∧
    complex_recv [64, 12, 0, 0, 0, 0, 0, 0, 192, 2, 0, 0, 0, 0, 0, 0]
      = .ok (complex_make (Float8.ofBits 0x400C000000000000) (Float8.ofBits 0xC002000000000000),
          []) ∧
    strtod_subject ['3', '.', '5'] = some (Float8.ofBits 0x400C000000000000, []) ∧
    strtod_subject ['-', '2', '.', '2', '5'] = some (Float8.ofBits 0xC002000000000000, []) := by
  refine ⟨fun c => ?_, fun a b => complex_recv_send _, by decide, by rfl, by rfl, by rfl⟩
  have ha := pq_sendfloat8_big_endian c.a
  have hb := pq_sendfloat8_big_endian c.b
  have h8 : (pq_sendfloat8 [] c.a).length = 8 := ha.1
  refine ⟨?_, ?_, ?_, ?_, complex_recv_send c⟩
  · rw [complex_send_eq, List.length_append, ha.1, hb.1]
  · intro x hx
    rw [complex_send_eq, List.mem_append] at hx
    rcases hx with hx | hx
    · exact ha.2.1 x hx
    · exact hb.2.1 x hx
  · rw [complex_send_eq, List.take_left' h8]
    exact ha.2.2
  · rw [complex_send_eq, List.drop_left' h8]
    exact hb.2.2

/-! ## Operators over exact numbers -/

/-- Over exact numbers there is no negative zero: `complex_make` stores its
arguments. -/
theorem complex_make_rat (a b : ℚ) : complex_make a b = ⟨a, b⟩ := by
  simp only [complex_make, CDouble.eqZero, CDouble.zero, decide_eq_true_eq]
  by_cases ha : a = 0 <;> by_cases hb : b = 0 <;> simp [ha, hb]

/-- The guard of `complex_div` in terms of absolute values. -/
theorem FPzero_iff (A : ℚ) : FPzero A = true ↔ |A| ≤ 1 / 1000000 := by
  simp [FPzero, EPSILON]

/-- The squared modulus of a divisor that passes the guard of `complex_div` is
positive. -/
theorem div_den_pos (d : Complex ℚ) (h : ¬ (|d.a| ≤ 1 / 1000000 ∧ |d.b| ≤ 1 / 1000000)) :
    0 < d.a * d.a + d.b * d.b := by
  have h1 : d.a ≠ 0 ∨ d.b ≠ 0 := by
    by_contra hc
    push_neg at hc
    apply h
    rw [hc.1, hc.2]
    norm_num
  rcases h1 with h1 | h1
  · have := mul_self_pos.mpr h1
    nlinarith [mul_self_nonneg d.b]
  · have := mul_self_pos.mpr h1
    nlinarith [mul_self_nonneg d.a]

/-- What `complex_div` returns, on either side of its guard. -/
theorem complex_div_eq (c d : Complex ℚ) :
    complex_div c d =
      if |d.a| ≤ 1 / 1000000 ∧ |d.b| ≤ 1 / 1000000 then .error err_div
      else .ok ⟨(c.a * d.a + c.b * d.b) / (d.a * d.a + d.b * d.b),
        (c.b * d.a - c.a * d.b) / (d.a * d.a + d.b * d.b)⟩ := by
  simp only [complex_div, complex_make_rat, Bool.and_eq_true, FPzero_iff]

/-- C4: `complex_div(c, d)` raises the domain error if and only if both
`|d.a| ≤ 1e-6` and `|d.b| ≤ 1e-6`, and returns a value for every other
divisor.  `div((1,1),(0,0))` and `div((1,1),(1e-7,1e-7))` fail; a divisor of
which exactly one component is within the tolerance of zero is accepted. -/
theorem complex_div_domain_error :
    (∀ c d : Complex ℚ,
      complex_div c d = .error err_div ↔ (|d.a| ≤ 1 / 1000000 ∧ |d.b| ≤ 1 / 1000000)) ∧
    (∀ c d : Complex ℚ,
      ¬ (|d.a| ≤ 1 / 1000000 ∧ |d.b| ≤ 1 / 1000000) → ∃ q, complex_div c d = .ok q) ∧
    complex_div (complex_make 1 1) (complex_make 0 0) = .error err_div ∧
    complex_div (complex_make 1 1) (complex_make (1 / 10000000) (1 / 10000000))
      = .error err_div ∧
    (∀ c d : Complex ℚ,
      (|d.a| ≤ 1 / 1000000 ∧ ¬ |d.b| ≤ 1 / 1000000) ∨
        (¬ |d.a| ≤ 1 / 1000000 ∧ |d.b| ≤ 1 / 1000000) →
      ∃ q, complex_div c d = .ok q) ∧
    err_div.errcode = ErrCode.ERRCODE_INVALID_PARAMETER_VALUE := by
  refine ⟨fun c d => ?_, fun c d h => ?_, ?_, ?_, fun c d h => ?_, rfl⟩
  · rw [complex_div_eq]
    split <;> simp_all
  · rw [complex_div_eq, if_neg h]
    exact ⟨_, rfl⟩
  · rw [complex_div_eq, if_pos]
    simp only [complex_make_rat]
    norm_num
  · rw [complex_div_eq, if_pos]
    simp only [complex_make_rat]
    norm_num [abs_of_pos]
  · rw [complex_div_eq, if_neg]
    · exact ⟨_, rfl⟩
    · rcases h with h | h
      · exact fun hc => h.2 hc.2
      · exact fun hc => h.1 hc.1

/-- Witness for C4: the divisor `(1, 0)` has exactly one component within the
tolerance of zero, and `div((1,1),(1,0))` returns a value. -/
theorem complex_div_domain_error_witness :
    ((|(1 : ℚ)| ≤ 1 / 1000000 ∧ ¬ |(0 : ℚ)| ≤ 1 / 1000000) ∨
        (¬ |(1 : ℚ)| ≤ 1 / 1000000 ∧ |(0 : ℚ)| ≤ 1 / 1000000)) ∧
    ∃ q, complex_div ⟨1, 1⟩ ⟨1, 0⟩ = .ok q :=
  have h : (|(1 : ℚ)| ≤ 1 / 1000000 ∧ ¬ |(0 : ℚ)| ≤ 1 / 1000000) ∨
      (¬ |(1 : ℚ)| ≤ 1 / 1000000 ∧ |(0 : ℚ)| ≤ 1 / 1000000) := by norm_num
  ⟨h, complex_div_domain_error.2.2.2.2.1 ⟨1, 1⟩ ⟨1, 0⟩ h⟩

/-- C9: `complex_div` is the standard complex division.  For every `c` and every
divisor `d` that is not within the tolerance of zero in both components, the
call returns `q` with `q.a = (c.a*d.a + c.b*d.b)/den` and
`q.b = (c.b*d.a - c.a*d.b)/den`, where `den = d.a^2 + d.b^2`; and, the
components being exact numbers, the standard complex product of `q` and `d`
is `c`. -/
theorem complex_div_standard (c d : Complex ℚ)
    (h : ¬ (|d.a| ≤ 1 / 1000000 ∧ |d.b| ≤ 1 / 1000000)) :
    ∃ q : Complex ℚ, complex_div c d = .ok q ∧
      q.a = (c.a * d.a + c.b * d.b) / (d.a ^ 2 + d.b ^ 2) ∧
      q.b = (c.b * d.a - c.a * d.b) / (d.a ^ 2 + d.b ^ 2) ∧
      q.a * d.a - q.b * d.b = c.a ∧
      q.a * d.b + q.b * d.a = c.b := by
  have hpos := div_den_pos d h
  have hne : d.a * d.a + d.b * d.b ≠ 0 := ne_of_gt hpos
  refine ⟨_, by rw [complex_div_eq, if_neg h], ?_, ?_, ?_, ?_⟩
  · simp only [pow_two]
  · simp only [pow_two]
  · field_simp
    ring
  · field_simp
    ring

/-- Witness for C9: `(1, 2) / (3, 4)`. -/
theorem complex_div_standard_witness :
    ¬ (|(3 : ℚ)| ≤ 1 / 1000000 ∧ |(4 : ℚ)| ≤ 1 / 1000000) ∧
    ∃ q : Complex ℚ, complex_div ⟨1, 2⟩ ⟨3, 4⟩ = .ok q ∧
      q.a = ((1 : ℚ) * 3 + 2 * 4) / (3 ^ 2 + 4 ^ 2) ∧
      q.b = ((2 : ℚ) * 3 - 1 * 4) / (3 ^ 2 + 4 ^ 2) ∧
      q.a * 3 - q.b * 4 = 1 ∧
      q.a * 4 + q.b * 3 = 2 :=
  have h : ¬ (|(3 : ℚ)| ≤ 1 / 1000000 ∧ |(4 : ℚ)| ≤ 1 / 1000000) := by norm_num
  ⟨h, complex_div_standard ⟨1, 2⟩ ⟨3, 4⟩ h⟩

/-- C10: `complex_mult` is the componentwise product.  For all `c` and `d` it
returns `complex_make(c.a*d.a, c.b*d.b)`, whose components are `c.a*d.a` and
`c.b*d.b`; for `c = d = (0, 1)` this is `(0, 1)`, while the standard complex
product `(c.a*d.a - c.b*d.b, c.a*d.b + c.b*d.a)` is `(-1, 0)`. -/
theorem complex_mult_componentwise :
    (∀ c d : Complex ℚ,
      complex_mult c d = complex_make (c.a * d.a) (c.b * d.b) ∧
      (complex_mult c d).a = c.a * d.a ∧ (complex_mult c d).b = c.b * d.b) ∧
    complex_mult ⟨0, 1⟩ ⟨0, 1⟩ = ⟨0, 1⟩ ∧
    (⟨(0 : ℚ) * 0 - 1 * 1, (0 : ℚ) * 1 + 1 * 0⟩ : Complex ℚ) = ⟨-1, 0⟩ ∧
    complex_mult ⟨0, 1⟩ ⟨0, 1⟩
      ≠ ⟨(0 : ℚ) * 0 - 1 * 1, (0 : ℚ) * 1 + 1 * 0⟩ := by
  refine ⟨fun c d => ⟨rfl, ?_, ?_⟩, ?_, ?_, ?_⟩
  · simp only [complex_mult, complex_make_rat]
  · simp only [complex_mult, complex_make_rat]
  · simp only [complex_mult, complex_make_rat]
    norm_num
  · norm_num
  · simp only [complex_mult, complex_make_rat]
    norm_num

/-- What `complex_dist_internal` returns: with `x` the larger and `y` the
smaller of `|c.a - d.a|` and `|c.b - d.b|`, it is `x` when `y` is within the
tolerance of zero and `sqrt (1 + (y/x)^2)` otherwise. -/
theorem complex_dist_internal_eq (sqrt : ℚ → ℚ) (c d : Complex ℚ) :
    complex_dist_internal sqrt c d =
      if min |c.a - d.a| |c.b - d.b| ≤ 1 / 1000000 then max |c.a - d.a| |c.b - d.b|
      else sqrt (1 + (min |c.a - d.a| |c.b - d.b| / max |c.a - d.a| |c.b - d.b|)
        * (min |c.a - d.a| |c.b - d.b| / max |c.a - d.a| |c.b - d.b|)) := by
  have hy : ∀ x y : ℚ, 0 ≤ y → (FPzero y = true ↔ y ≤ 1 / 1000000) := by
    intro x y h0
    rw [FPzero_iff, abs_of_nonneg h0]
  simp only [complex_dist_internal]
  by_cases hxy : |c.a - d.a| < |c.b - d.b|
  · simp only [if_pos hxy, min_eq_left hxy.le, max_eq_right hxy.le,
      hy 0 _ (abs_nonneg (c.a - d.a))]
  · have hle := not_lt.mp hxy
    simp only [if_neg hxy, min_eq_right hle, max_eq_left hle, hy 0 _ (abs_nonneg (c.b - d.b))]

/-- C5 (evaluation of the code): for every `c` and `d` whose smaller coordinate
difference `y` exceeds the tolerance, `complex_dist_internal` returns
`sqrt (1 + (y/x)^2)`, without the factor `x`.  So
`distance((0,0),(3,4))` is `sqrt (1 + (3/4)^2) = 1.25` with any square root
that is exact at `25/16`, which is not within the tolerance of `5`. -/
theorem complex_dist_internal_omits_scale (sqrt : ℚ → ℚ) (hsqrt : sqrt (25 / 16) = 5 / 4) :
    complex_dist_internal sqrt (complex_make 0 0) (complex_make 3 4) = 5 / 4 ∧
    FPeq (complex_dist_internal sqrt (complex_make 0 0) (complex_make 3 4)) 5 = false := by
  have h : complex_dist_internal sqrt (complex_make 0 0) (complex_make 3 4) = 5 / 4 := by
    rw [complex_dist_internal_eq]
    simp only [complex_make_rat]
    norm_num
    exact hsqrt
  refine ⟨h, ?_⟩
  rw [h]
  simp only [FPeq, EPSILON, decide_eq_false_iff_not]
  norm_num [abs_of_neg]

/-- Witness for C5: the square root of `Rat.sqrt` is exact at `25/16`. -/
theorem complex_dist_internal_omits_scale_witness :
    Rat.sqrt (25 / 16) = 5 / 4 ∧
    complex_dist_internal Rat.sqrt (complex_make 0 0) (complex_make 3 4) = 5 / 4 ∧
    FPeq (complex_dist_internal Rat.sqrt (complex_make 0 0) (complex_make 3 4)) 5 = false :=
  have h : Rat.sqrt (25 / 16) = 5 / 4 := by
    have h1 := Rat.sqrt_eq (5 / 4)
    rw [abs_of_pos (by norm_num : (0 : ℚ) < 5 / 4)] at h1
    rw [← h1]
    norm_num
  ⟨h, complex_dist_internal_omits_scale Rat.sqrt h⟩

/-! ## Textual codec: parsing -/

/-- The function `p_whitespace` skips a white-space run. -/
theorem p_whitespace_append (w s : List Char) (hw : wsRun w) :
    p_whitespace (w ++ s) = p_whitespace s := by
  induction w with
  | nil => rfl
  | cons c w ih =>
    have hc := hw c (List.mem_cons_self c w)
    have hw2 : wsRun w := fun x hx => hw x (List.mem_cons_of_mem c hx)
    rw [List.cons_append, p_whitespace, if_pos (by tauto), ih hw2]

/-- The function `strtod` skips a white-space run. -/
theorem strtod_append {α : Type} (subj : List Char → Option (α × List Char))
    (w s : List Char) (hw : wsRun w) : strtod subj (w ++ s) = strtod subj s := by
  induction w with
  | nil => rfl
  | cons c w ih =>
    have hc := hw c (List.mem_cons_self c w)
    have hw2 : wsRun w := fun x hx => hw x (List.mem_cons_of_mem c hx)
    have hsp : isspace c = true := by
      rcases hc with rfl | rfl | rfl | rfl <;> rfl
    have h := ih hw2
    simp only [strtod] at h ⊢
    rw [List.cons_append, List.dropWhile_cons, if_pos hsp, h]

/-- The function `p_oparen` on white space followed by `(`. -/
theorem p_oparen_append (w t : List Char) (hw : wsRun w) :
    p_oparen (w ++ '(' :: t) = (true, t) := by
  simp [p_oparen, p_whitespace_append w _ hw, p_whitespace]

/-- The function `p_comma` on white space followed by a comma. -/
theorem p_comma_append (w t : List Char) (hw : wsRun w) :
    p_comma (w ++ ',' :: t) = (true, t) := by
  simp [p_comma, p_whitespace_append w _ hw, p_whitespace]

/-- The function `p_cparen` on white space followed by `)`. -/
theorem p_cparen_append (w t : List Char) (hw : wsRun w) :
    p_cparen (w ++ ')' :: t) = (true, t) := by
  simp [p_cparen, p_whitespace_append w _ hw, p_whitespace]

/-- The function `ensure_end_input` on a white-space run. -/
theorem ensure_end_input_ws (w : List Char) (hw : wsRun w) :
    ensure_end_input w true = .ok [] := by
  have h := p_whitespace_append w [] hw
  rw [List.append_nil] at h
  simp [ensure_end_input, h, p_whitespace, cur]

/-- The function `double_parse` on white space, an accepted numeral, white
space and a comma or closing parenthesis. -/
theorem double_parse_accepts {α : Type} (subj : List Char → Option (α × List Char))
    (w r w2 t : List Char) (v : α) (d : Char) (hw : wsRun w) (hw2 : wsRun w2)
    (hd : d = ',' ∨ d = ')') (hr : Accepts subj r v) :
    double_parse subj (w ++ (r ++ (w2 ++ d :: t))) = .ok (v, w2 ++ d :: t) := by
  have h : strtod subj (r ++ (w2 ++ d :: t)) = some (v, w2 ++ d :: t) := by
    cases w2 with
    | nil =>
      exact hr d t (by rcases hd with rfl | rfl <;> simp [delimiter])
    | cons c w2 =>
      have hc := hw2 c (List.mem_cons_self c w2)
      exact hr c (w2 ++ d :: t) (by unfold delimiter; tauto)
  simp only [double_parse, strtod_append subj w _ hw, h]

/-- The string `ws ( ws r1 ws , ws r2 ws ) ws` with accepted numerals `r1` and
`r2` parses to `complex_make v1 v2`, and nothing of it is left. -/
theorem complex_parse_frame {α : Type} [CDouble α] (subj : List Char → Option (α × List Char))
    (r1 r2 w0 w1 w2 w3 w4 w5 : List Char) (v1 v2 : α)
    (h0 : wsRun w0) (h1 : wsRun w1) (h2 : wsRun w2) (h3 : wsRun w3) (h4 : wsRun w4)
    (h5 : wsRun w5) (hr1 : Accepts subj r1 v1) (hr2 : Accepts subj r2 v2) :
    complex_parse subj
        (w0 ++ '(' :: (w1 ++ (r1 ++ (w2 ++ ',' :: (w3 ++ (r2 ++ (w4 ++ ')' :: w5)))))))
      = .ok (complex_make v1 v2, []) := by
  simp only [complex_parse, p_oparen_append w0 _ h0,
    double_parse_accepts subj w1 r1 w2 _ v1 ',' h1 h2 (Or.inl rfl) hr1,
    p_comma_append w2 _ h2,
    double_parse_accepts subj w3 r2 w4 _ v2 ')' h3 h4 (Or.inr rfl) hr2,
    p_cparen_append w4 _ h4, ensure_end_input_ws w5 h5]

/-- The function `p_oparen` fails when the first character after the white
space is not `(`. -/
theorem p_oparen_fail (str : List Char) (h : ∀ t, p_whitespace str ≠ '(' :: t) :
    (p_oparen str).1 = false := by
  unfold p_oparen
  split
  · next t heq => exact absurd heq (h t)
  · rfl

/-- The function `p_comma` fails when the first character after the white
space is not a comma. -/
theorem p_comma_fail (str : List Char) (h : ∀ t, p_whitespace str ≠ ',' :: t) :
    (p_comma str).1 = false := by
  unfold p_comma
  split
  · next t heq => exact absurd heq (h t)
  · rfl

/-- The function `p_cparen` fails when the first character after the white
space is not `)`. -/
theorem p_cparen_fail (str : List Char) (h : ∀ t, p_whitespace str ≠ ')' :: t) :
    (p_cparen str).1 = false := by
  unfold p_cparen
  split
  · next t heq => exact absurd heq (h t)
  · rfl

/-- The function `p_oparen` succeeds when the first character after the white
space is `(`. -/
theorem p_oparen_ok (str t : List Char) (h : p_whitespace str = '(' :: t) :
    p_oparen str = (true, t) := by
  simp [p_oparen, h]

/-- The function `p_comma` succeeds when the first character after the white
space is a comma. -/
theorem p_comma_ok (str t : List Char) (h : p_whitespace str = ',' :: t) :
    p_comma str = (true, t) := by
  simp [p_comma, h]

/-- The function `p_cparen` succeeds when the first character after the white
space is `)`. -/
theorem p_cparen_ok (str t : List Char) (h : p_whitespace str = ')' :: t) :
    p_cparen str = (true, t) := by
  simp [p_cparen, h]

/-- The function `double_parse` returns what `strtod` converted. -/
theorem double_parse_ok {α : Type} (subj : List Char → Option (α × List Char))
    (str nextstr : List Char) (v : α) (h : strtod subj str = some (v, nextstr)) :
    double_parse subj str = .ok (v, nextstr) := by
  simp [double_parse, h]

/-- C2: `complex_parse` raises a syntax error, and returns no value, on every
input (a) whose first character after leading white space is not `(`,
(b) where the first character after the first number and white space is not a
comma, (c) where the first character after the second number and white space
is not `)`, (d) where a character other than white space follows the closing
`)`.  With the model of `strtod`, the inputs `(1,2`, `1,2)`, `(1 2)` and
`(1,2) x` fail and `(1,2)` succeeds.  Every report carries the error code of
an invalid text representation. -/
theorem complex_parse_rejects {α : Type} [CDouble α] :
    (∀ (subj : List Char → Option (α × List Char)) (str : List Char),
      (∀ t, p_whitespace str ≠ '(' :: t) → complex_parse subj str = .error err_complex) ∧
    (∀ (subj : List Char → Option (α × List Char)) (str s1 s2 : List Char) (a : α),
      p_whitespace str = '(' :: s1 → strtod subj s1 = some (a, s2) →
      (∀ t, p_whitespace s2 ≠ ',' :: t) → complex_parse subj str = .error err_complex) ∧
    (∀ (subj : List Char → Option (α × List Char)) (str s1 s2 s3 s4 : List Char) (a b : α),
      p_whitespace str = '(' :: s1 → strtod subj s1 = some (a, s2) →
      p_whitespace s2 = ',' :: s3 → strtod subj s3 = some (b, s4) →
      (∀ t, p_whitespace s4 ≠ ')' :: t) → complex_parse subj str = .error err_complex) ∧
    (∀ (subj : List Char → Option (α × List Char)) (str s1 s2 s3 s4 s5 : List Char) (a b : α),
      p_whitespace str = '(' :: s1 → strtod subj s1 = some (a, s2) →
      p_whitespace s2 = ',' :: s3 → strtod subj s3 = some (b, s4) →
      p_whitespace s4 = ')' :: s5 → cur (p_whitespace s5) ≠ Char.ofNat 0 →
      complex_parse subj str = .error err_end_input) ∧
    complex_parse strtod_subject "(1,2".toList = .error err_complex ∧
    complex_parse strtod_subject "1,2)".toList = .error err_complex ∧
    complex_parse strtod_subject "(1 2)".toList = .error err_complex ∧
    complex_parse strtod_subject "(1,2) x".toList = .error err_end_input ∧
    complex_parse strtod_subject "(1,2)".toList
      = .ok (complex_make (Float8.ofBits 0x3FF0000000000000)
          (Float8.ofBits 0x4000000000000000), []) ∧
    err_complex.errcode = ErrCode.ERRCODE_INVALID_TEXT_REPRESENTATION ∧
    err_end_input.errcode = ErrCode.ERRCODE_INVALID_TEXT_REPRESENTATION := by
  refine ⟨?_, ?_, ?_, ?_, by rfl, by rfl, by rfl, by rfl, by rfl, rfl, rfl⟩
  · intro subj str h
    have h1 := p_oparen_fail str h
    unfold complex_parse
    split
    · rfl
    · next s1 heq => rw [heq] at h1; cases h1
  · intro subj str s1 s2 a h1 h2 h3
    have hc := p_comma_fail s2 h3
    unfold complex_parse
    rw [p_oparen_ok str s1 h1]
    simp only [double_parse_ok subj s1 s2 a h2]
    split
    · rfl
    · next s3 heq => rw [heq] at hc; cases hc
  · intro subj str s1 s2 s3 s4 a b h1 h2 h3 h4 h5
    have hc := p_cparen_fail s4 h5
    unfold complex_parse
    rw [p_oparen_ok str s1 h1]
    simp only [double_parse_ok subj s1 s2 a h2, p_comma_ok s2 s3 h3,
      double_parse_ok subj s3 s4 b h4]
    split
    · rfl
    · next s5 heq => rw [heq] at hc; cases hc
  · intro subj str s1 s2 s3 s4 s5 a b h1 h2 h3 h4 h5 h6
    unfold complex_parse
    rw [p_oparen_ok str s1 h1]
    simp only [double_parse_ok subj s1 s2 a h2, p_comma_ok s2 s3 h3,
      double_parse_ok subj s3 s4 b h4, p_cparen_ok s4 s5 h5, ensure_end_input, if_true,
      if_pos h6]

/-- Witness for C2: in `(1,2) x` the character `x` follows the closing
parenthesis. -/
theorem complex_parse_rejects_witness :
    cur (p_whitespace [' ', 'x']) ≠ Char.ofNat 0 ∧
    complex_parse strtod_subject ['(', '1', ',', '2', ')', ' ', 'x'] = .error err_end_input :=
  have h6 : cur (p_whitespace [' ', 'x']) ≠ Char.ofNat 0 := by decide
  ⟨h6, (@complex_parse_rejects Float8 _).2.2.2.1 strtod_subject
    ['(', '1', ',', '2', ')', ' ', 'x']
    ['1', ',', '2', ')', ' ', 'x'] [',', '2', ')', ' ', 'x'] ['2', ')', ' ', 'x']
    [')', ' ', 'x'] [' ', 'x'] (Float8.ofBits 0x3FF0000000000000)
    (Float8.ofBits 0x4000000000000000) (by rfl) (by rfl) (by rfl) (by rfl) (by rfl) h6⟩

/-! ## The model of `strtod` before a delimiter -/

/-- What the scanners of the model need to know of a delimiter. -/
theorem delimiter_facts (c : Char) (hc : delimiter c) :
    isDigit c = false ∧ isHexDigit c = false ∧ isNChar c = false ∧ c ≠ '.' ∧ c ≠ '-' ∧
    c ≠ '+' ∧ c ≠ '(' ∧ c ≠ '0' ∧ (∀ lo : Char, 97 ≤ lo.toNat → isLetter lo c = false) := by
  have hlt : c.toNat < 45 := by
    rcases hc with rfl | rfl | rfl | rfl | rfl | rfl <;> decide
  have h1 : isDigit c = false := by
    rcases hc with rfl | rfl | rfl | rfl | rfl | rfl <;> rfl
  have h2 : isHexDigit c = false := by
    rcases hc with rfl | rfl | rfl | rfl | rfl | rfl <;> rfl
  have h3 : isNChar c = false := by
    rcases hc with rfl | rfl | rfl | rfl | rfl | rfl <;> rfl
  refine ⟨h1, h2, h3, ?_, ?_, ?_, ?_, ?_, ?_⟩
  · rcases hc with rfl | rfl | rfl | rfl | rfl | rfl <;> decide
  · rcases hc with rfl | rfl | rfl | rfl | rfl | rfl <;> decide
  · rcases hc with rfl | rfl | rfl | rfl | rfl | rfl <;> decide
  · rcases hc with rfl | rfl | rfl | rfl | rfl | rfl <;> decide
  · rcases hc with rfl | rfl | rfl | rfl | rfl | rfl <;> decide
  · intro lo hlo
    simp only [isLetter, Bool.or_eq_false_iff, beq_eq_false_iff_ne, ne_eq]
    constructor
    · intro h
      rw [h] at hlt
      omega
    · omega

/-- The function `spanP` before a character that fails the test. -/
theorem spanP_append (p : Char → Bool) (r : List Char) (c : Char) (rest : List Char)
    (hp : p c = false) :
    spanP p (r ++ c :: rest) = ((spanP p r).1, (spanP p r).2 ++ c :: rest) := by
  induction r with
  | nil => simp [spanP, hp]
  | cons x xs ih =>
    simp only [List.cons_append, spanP]
    split <;> simp [ih]

/-- The function `scanSign` before a delimiter. -/
theorem scanSign_append (r : List Char) (c : Char) (rest : List Char) (hc : delimiter c) :
    scanSign (r ++ c :: rest) = ((scanSign r).1, (scanSign r).2 ++ c :: rest) := by
  obtain ⟨-, -, -, -, h1, h2, -⟩ := delimiter_facts c hc
  cases r with
  | nil =>
    simp only [List.nil_append]
    unfold scanSign
    split
    · next t heq => simp only [List.cons.injEq] at heq; exact absurd heq.1 h1
    · next t heq => simp only [List.cons.injEq] at heq; exact absurd heq.1 h2
    · simp
  | cons x xs =>
    simp only [List.cons_append]
    by_cases hx1 : x = '-'
    · subst hx1; rfl
    · by_cases hx2 : x = '+'
      · subst hx2; rfl
      · have e1 : ∀ l : List Char, scanSign (x :: l) = (false, x :: l) := by
          intro l
          unfold scanSign
          split
          · next t heq => simp only [List.cons.injEq] at heq; exact absurd heq.1 hx1
          · next t heq => simp only [List.cons.injEq] at heq; exact absurd heq.1 hx2
          · rfl
        rw [e1, e1]
        rfl

/-- The function `scanExp` before a delimiter. -/
theorem scanExp_append (m : Char) (hm : 97 ≤ m.toNat) (r : List Char) (c : Char)
    (rest : List Char) (hc : delimiter c) :
    scanExp m (r ++ c :: rest) = ((scanExp m r).1, (scanExp m r).2 ++ c :: rest) := by
  obtain ⟨hd, -, -, -, -, -, -, -, hl⟩ := delimiter_facts c hc
  cases r with
  | nil => simp [scanExp, hl m hm]
  | cons x t =>
    simp only [List.cons_append, scanExp]
    by_cases hx : isLetter m x = true
    · simp only [hx, if_true, scanSign_append t c rest hc, spanP_append isDigit _ c rest hd]
      by_cases he : (spanP isDigit (scanSign t).2).1.isEmpty = true
      · simp [he]
      · simp [he]
    · simp [hx]

/-- The function `scanSignificand` before a delimiter. -/
theorem scanSignificand_append (isDig : Char → Bool) (b : Nat) (r : List Char) (c : Char)
    (rest : List Char) (hd : isDig c = false) (hdot : c ≠ '.') :
    scanSignificand isDig b (r ++ c :: rest)
      = (scanSignificand isDig b r).map fun x => (x.1, x.2.1, x.2.2 ++ c :: rest) := by
  simp only [scanSignificand, spanP_append isDig r c rest hd]
  have key : (match (spanP isDig r).2 ++ c :: rest with
        | '.' :: t => spanP isDig t
        | u => ([], u))
      = ((match (spanP isDig r).2 with
          | '.' :: t => spanP isDig t
          | u => ([], u)).1,
        (match (spanP isDig r).2 with
          | '.' :: t => spanP isDig t
          | u => ([], u)).2 ++ c :: rest) := by
    cases h2 : (spanP isDig r).2 with
    | nil =>
      simp only [List.nil_append]
      split
      · next t heq => simp only [List.cons.injEq] at heq; exact absurd heq.1 hdot
      · rfl
    | cons y ys =>
      simp only [List.cons_append]
      by_cases hy : y = '.'
      · subst hy
        simp only [spanP_append isDig ys c rest hd]
      · split
        · next t heq => simp only [List.cons.injEq] at heq; exact absurd heq.1 hy
        · split
          · next t heq => simp only [List.cons.injEq] at heq; exact absurd heq.1 hy
          · rfl
  rw [key]
  split <;> simp

/-- The function `scanDec` before a delimiter. -/
theorem scanDec_append (neg : Bool) (r : List Char) (c : Char) (rest : List Char)
    (hc : delimiter c) :
    scanDec neg (r ++ c :: rest) = (scanDec neg r).map fun x => (x.1, x.2 ++ c :: rest) := by
  obtain ⟨hd, -, -, hdot, -⟩ := delimiter_facts c hc
  simp only [scanDec, scanSignificand_append isDigit 10 r c rest hd hdot]
  cases scanSignificand isDigit 10 r with
  | none => rfl
  | some x =>
    obtain ⟨n, k, u⟩ := x
    simp only [Option.map_some', scanExp_append 'e' (by decide) u c rest hc]

/-- The function `scanHex` before a delimiter. -/
theorem scanHex_append (neg : Bool) (r : List Char) (c : Char) (rest : List Char)
    (hc : delimiter c) :
    scanHex neg (r ++ c :: rest) = (scanHex neg r).map fun x => (x.1, x.2 ++ c :: rest) := by
  obtain ⟨-, hh, -, hdot, -, -, -, h0, hl⟩ := delimiter_facts c hc
  have hnone : ∀ (y : Char) (l : List Char), y ≠ '0' → scanHex neg (y :: l) = none := by
    intro y l hy
    unfold scanHex
    split
    · next x t heq => simp only [List.cons.injEq] at heq; exact absurd heq.1 hy
    · rfl
  cases r with
  | nil => rw [List.nil_append, hnone c rest h0]; rfl
  | cons y ys =>
    by_cases hy : y = '0'
    · subst hy
      cases ys with
      | nil => simp [scanHex, hl 'x' (by decide)]
      | cons x t =>
        simp only [List.cons_append, scanHex]
        by_cases hx : isLetter 'x' x = true
        · simp only [hx, if_true, scanSignificand_append isHexDigit 16 t c rest hh hdot]
          cases scanSignificand isHexDigit 16 t with
          | none => rfl
          | some z =>
            obtain ⟨n, k, u⟩ := z
            simp only [Option.map_some', scanExp_append 'p' (by decide) u c rest hc]
        · simp [hx]
    · rw [List.cons_append, hnone y _ hy, hnone y _ hy]; rfl

/-- The function `scanInf` before a delimiter. -/
theorem scanInf_append (neg : Bool) (r : List Char) (c : Char) (rest : List Char)
    (hc : delimiter c) :
    scanInf neg (r ++ c :: rest) = (scanInf neg r).map fun x => (x.1, x.2 ++ c :: rest) := by
  obtain ⟨-, -, -, -, -, -, -, -, hl⟩ := delimiter_facts c hc
  have hi := hl 'i' (by decide)
  have hn := hl 'n' (by decide)
  have hf := hl 'f' (by decide)
  have ht := hl 't' (by decide)
  have hy := hl 'y' (by decide)
  match r with
  | [] => cases rest with
    | nil => rfl
    | cons a rest => cases rest with
      | nil => rfl
      | cons b rest => simp [scanInf, hi]
  | [c1] => cases rest with
    | nil => rfl
    | cons a rest => simp [scanInf, hn]
  | [c1, c2] => simp [scanInf, hf]
  | c1 :: c2 :: c3 :: t =>
    simp only [List.cons_append, scanInf]
    by_cases h3 : (isLetter 'i' c1 && isLetter 'n' c2 && isLetter 'f' c3) = true
    · simp only [h3, if_true]
      match t with
      | [] => match rest with
        | [] => rfl
        | [_] => rfl
        | [_, _] => rfl
        | [_, _, _] => rfl
        | _ :: _ :: _ :: _ :: _ => simp [hi]
      | [d1] => match rest with
        | [] => rfl
        | [_] => rfl
        | [_, _] => rfl
        | _ :: _ :: _ :: _ => simp [hn]
      | [d1, d2] => match rest with
        | [] => rfl
        | [_] => rfl
        | _ :: _ :: _ => simp [hi]
      | [d1, d2, d3] => match rest with
        | [] => rfl
        | _ :: _ => simp [ht]
      | [d1, d2, d3, d4] => simp [hy]
      | d1 :: d2 :: d3 :: d4 :: d5 :: u =>
        simp only [List.cons_append]
        split <;> simp
    · simp [h3]

/-- The function `scanNan` before a delimiter, when it converts all of its
input. -/
theorem scanNan_append (neg : Bool) (r : List Char) (v : Float8) (c : Char) (rest : List Char)
    (hc : delimiter c) (h : scanNan neg r = some (v, [])) :
    scanNan neg (r ++ c :: rest) = some (v, c :: rest) := by
  obtain ⟨-, -, hnc, -, -, -, hpar, -, -⟩ := delimiter_facts c hc
  match r with
  | [] => simp [scanNan] at h
  | [_] => simp [scanNan] at h
  | [_, _] => simp [scanNan] at h
  | c1 :: c2 :: c3 :: t =>
    simp only [List.cons_append, scanNan] at h ⊢
    by_cases h3 : (isLetter 'n' c1 && isLetter 'a' c2 && isLetter 'n' c3) = true
    · simp only [h3, if_true] at h ⊢
      match t with
      | [] =>
        simp only [Option.some.injEq, Prod.mk.injEq, and_true] at h
        simp only [List.nil_append]
        split
        · next u heq => simp only [List.cons.injEq] at heq; exact absurd heq.1 hpar
        · rw [h]
      | y :: ys =>
        by_cases hy : y = '('
        · subst hy
          simp only [List.cons_append, spanP_append isNChar ys c rest hnc] at h ⊢
          cases h2 : (spanP isNChar ys).2 with
          | nil => simp [h2] at h
          | cons z zs =>
            by_cases hz : z = ')'
            · subst hz
              simp only [h2, Option.some.injEq, Prod.mk.injEq] at h
              simp [h2, h.1, h.2]
            · rw [h2] at h
              split at h
              · next w heq => simp only [List.cons.injEq] at heq; exact absurd heq.1 hz
              · simp at h
        · split at h
          · next u heq => simp only [List.cons.injEq] at heq; exact absurd heq.1 hy
          · simp at h
    · simp [h3] at h

/-- The model of the subject sequence before a delimiter: a text that is
converted as a whole is converted in the same way when a delimiter follows
it. -/
theorem strtod_subject_append (r : List Char) (v : Float8) (c : Char) (rest : List Char)
    (hc : delimiter c) (h : strtod_subject r = some (v, [])) :
    strtod_subject (r ++ c :: rest) = some (v, c :: rest) := by
  unfold strtod_subject at h ⊢
  simp only [scanSign_append r c rest hc, scanHex_append _ _ c rest hc,
    scanDec_append _ _ c rest hc, scanInf_append _ _ c rest hc]
  cases hH : scanHex (scanSign r).1 (scanSign r).2 with
  | some x =>
    simp only [hH, Option.orElse, Option.some.injEq] at h
    simp [Option.orElse, h]
  | none =>
    cases hD : scanDec (scanSign r).1 (scanSign r).2 with
    | some x =>
      simp only [hH, hD, Option.orElse, Option.some.injEq] at h
      simp [Option.orElse, h]
    | none =>
      cases hI : scanInf (scanSign r).1 (scanSign r).2 with
      | some x =>
        simp only [hH, hD, hI, Option.orElse, Option.some.injEq] at h
        simp [Option.orElse, h]
      | none =>
        simp only [hH, hD, hI, Option.orElse] at h
        simp only [Option.map_none', Option.orElse]
        exact scanNan_append _ _ v c rest hc h

/-- Dropping an initial run from a list that does not consist of it alone. -/
theorem dropWhile_append_of_ne_nil (p : Char → Bool) (r t : List Char)
    (h : r.dropWhile p ≠ []) : (r ++ t).dropWhile p = r.dropWhile p ++ t := by
  induction r with
  | nil => exact absurd rfl h
  | cons x xs ih =>
    simp only [List.cons_append, List.dropWhile_cons] at h ⊢
    split
    · next hx => rw [if_pos hx] at h; exact ih h
    · rfl

/-- In the model of `strtod`, a numeral that is converted as a whole is
accepted in the sense of `Accepts`. -/
theorem strtod_accepts (r : List Char) (v : Float8)
    (h : strtod strtod_subject r = some (v, [])) : Accepts strtod_subject r v := by
  intro c rest hc
  unfold strtod at h ⊢
  have hne : r.dropWhile isspace ≠ [] := by
    intro hnil
    rw [hnil] at h
    simp [strtod_subject, scanSign, scanHex, scanDec, scanSignificand, spanP, scanInf, scanNan,
      Option.orElse] at h
  rw [dropWhile_append_of_ne_nil isspace r _ hne]
  exact strtod_subject_append _ v c rest hc h


/-! ## Textual codec: white space -/

/-- C1: white space is permitted around the delimiters.  For every pair of
numerals `r1`, `r2` accepted by `strtod` (with values `v1`, `v2`) and all runs
`w0 .. w5` of spaces, tabs, newlines and carriage returns, `complex_parse` on
`w0 ( w1 r1 w2 , w3 r2 w4 ) w5` succeeds, leaves nothing unread and returns
`complex_make v1 v2`.  This holds for any `strtod` that skips white space, a
numeral being accepted when it is converted exactly whenever a delimiter
follows it; and it holds for the model of `strtod`, a numeral being accepted
when `strtod` converts all of it.  In particular `(1,2)` parses to
`complex_make(1.0, 2.0)`. -/
theorem complex_parse_whitespace :
    (∀ (α : Type) [CDouble α] (subj : List Char → Option (α × List Char))
      (r1 r2 w0 w1 w2 w3 w4 w5 : List Char) (v1 v2 : α),
      wsRun w0 → wsRun w1 → wsRun w2 → wsRun w3 → wsRun w4 → wsRun w5 →
      Accepts subj r1 v1 → Accepts subj r2 v2 →
      complex_parse subj
          (w0 ++ ['('] ++ w1 ++ r1 ++ w2 ++ [','] ++ w3 ++ r2 ++ w4 ++ [')'] ++ w5)
        = .ok (complex_make v1 v2, [])) ∧
    (∀ (r1 r2 w0 w1 w2 w3 w4 w5 : List Char) (v1 v2 : Float8),
      wsRun w0 → wsRun w1 → wsRun w2 → wsRun w3 → wsRun w4 → wsRun w5 →
      strtod strtod_subject r1 = some (v1, []) → strtod strtod_subject r2 = some (v2, []) →
      complex_parse strtod_subject
          (w0 ++ ['('] ++ w1 ++ r1 ++ w2 ++ [','] ++ w3 ++ r2 ++ w4 ++ [')'] ++ w5)
        = .ok (complex_make v1 v2, [])) ∧
    complex_parse strtod_subject "(1,2)".toList
      = .ok (complex_make (Float8.ofBits 0x3FF0000000000000)
          (Float8.ofBits 0x4000000000000000), []) := by
  refine ⟨?_, ?_, by rfl⟩
  · intro α _ subj r1 r2 w0 w1 w2 w3 w4 w5 v1 v2 h0 h1 h2 h3 h4 h5 hr1 hr2
    have h := complex_parse_frame subj r1 r2 w0 w1 w2 w3 w4 w5 v1 v2 h0 h1 h2 h3 h4 h5 hr1 hr2
    simpa only [List.append_assoc, List.singleton_append] using h
  · intro r1 r2 w0 w1 w2 w3 w4 w5 v1 v2 h0 h1 h2 h3 h4 h5 hr1 hr2
    have h := complex_parse_frame strtod_subject r1 r2 w0 w1 w2 w3 w4 w5 v1 v2 h0 h1 h2 h3 h4
      h5 (strtod_accepts r1 v1 hr1) (strtod_accepts r2 v2 hr2)
    simpa only [List.append_assoc, List.singleton_append] using h

/-- Witness for C1: the string ` ( 1 , 2 ) ` with a tab after the opening
parenthesis and a newline and a carriage return at its end. -/
theorem complex_parse_whitespace_witness :
    strtod strtod_subject ['1'] = some (Float8.ofBits 0x3FF0000000000000, []) ∧
    strtod strtod_subject ['2'] = some (Float8.ofBits 0x4000000000000000, []) ∧
    complex_parse strtod_subject
        ([' '] ++ ['('] ++ ['\t', ' '] ++ ['1'] ++ [' '] ++ [','] ++ [' '] ++ ['2'] ++ [' ']
          ++ [')'] ++ ['\n', '\r'])
      = .ok (complex_make (Float8.ofBits 0x3FF0000000000000)
          (Float8.ofBits 0x4000000000000000), []) :=
  ⟨by rfl, by rfl,
    complex_parse_whitespace.2.1 ['1'] ['2'] [' '] ['\t', ' '] [' '] [' '] [' ']
      ['\n', '\r'] (Float8.ofBits 0x3FF0000000000000) (Float8.ofBits 0x4000000000000000)
      (by simp [wsRun]) (by simp [wsRun]) (by simp [wsRun]) (by simp [wsRun]) (by simp [wsRun])
      (by simp [wsRun]) (by rfl) (by rfl)⟩

/-! ## Textual codec: round trip -/

/-- Applying `complex_make` to the components of a value it produced changes
nothing. -/
theorem complex_make_idem {α : Type} [CDouble α] (a b : α) :
    complex_make (complex_make a b).a (complex_make a b).b = complex_make a b := by
  unfold complex_make
  cases h1 : CDouble.eqZero a <;> cases h2 : CDouble.eqZero b <;>
    cases h3 : CDouble.eqZero (CDouble.zero : α) <;> simp [h1, h2, h3]

/-- The string that `complex_to_str` builds, with the white-space runs of the
grammar made explicit. -/
theorem complex_to_str_eq {α : Type} (fmt : Nat → α → List Char) (c : Complex α) :
    complex_to_str fmt c
      = [] ++ '(' :: ([] ++ (fmt DBL_DIG c.a ++ ([] ++ ',' :: ([' '] ++ (fmt DBL_DIG c.b
          ++ ([] ++ ')' :: [])))))) := by
  simp [complex_to_str]

/-- C3 (counterexample): the double `0.30000000000000004`, with bit pattern
`3FD3333333333334`, is finite; `complex_to_str` renders
`complex_make(0.30000000000000004, 1.0)` with 15 significant digits as
`(0.3, 1)`, and `complex_parse` reads that string as the value whose real part
is the double `0.3`, with bit pattern `3FD3333333333333`: the parse succeeds
but the real part is not the one that was formatted. -/
theorem complex_text_round_trip_counterexample :
    Float8.isFinite (Float8.ofBits 0x3FD3333333333334) = true ∧
    Float8.isFinite (Float8.ofBits 0x3FF0000000000000) = true ∧
    complex_to_str fmt_g
        (complex_make (Float8.ofBits 0x3FD3333333333334) (Float8.ofBits 0x3FF0000000000000))
      = "(0.3, 1)".toList ∧
    complex_parse strtod_subject (complex_to_str fmt_g
        (complex_make (Float8.ofBits 0x3FD3333333333334) (Float8.ofBits 0x3FF0000000000000)))
      = .ok (complex_make (Float8.ofBits 0x3FD3333333333333)
          (Float8.ofBits 0x3FF0000000000000), []) ∧
    (complex_make (Float8.ofBits 0x3FD3333333333333) (Float8.ofBits 0x3FF0000000000000)).a
      ≠ (complex_make (Float8.ofBits 0x3FD3333333333334)
          (Float8.ofBits 0x3FF0000000000000)).a ∧
    ¬ (∀ a b : Float8, Float8.isFinite a = true → Float8.isFinite b = true →
        ∃ rest, complex_parse strtod_subject (complex_to_str fmt_g (complex_make a b))
          = .ok (complex_make a b, rest)) := by
  have h4 : complex_parse strtod_subject (complex_to_str fmt_g
        (complex_make (Float8.ofBits 0x3FD3333333333334) (Float8.ofBits 0x3FF0000000000000)))
      = .ok (complex_make (Float8.ofBits 0x3FD3333333333333)
          (Float8.ofBits 0x3FF0000000000000), []) := by rfl
  have h5 : (complex_make (Float8.ofBits 0x3FD3333333333333)
        (Float8.ofBits 0x3FF0000000000000)).a
      ≠ (complex_make (Float8.ofBits 0x3FD3333333333334)
          (Float8.ofBits 0x3FF0000000000000)).a := by decide
  refine ⟨by decide, by decide, by decide, h4, h5, ?_⟩
  intro hall
  obtain ⟨rest, hr⟩ := hall (Float8.ofBits 0x3FD3333333333334)
    (Float8.ofBits 0x3FF0000000000000) (by decide) (by decide)
  rw [h4] at hr
  simp only [Except.ok.injEq, Prod.mk.injEq] at hr
  exact h5 (congrArg Complex.a hr.1)

/-- C3 (amended): textual round trip for the values that 15 digits identify.
For all doubles `a` and `b` such that `strtod` accepts the rendering with
`DBL_DIG = 15` significant digits of each component of `complex_make(a, b)`
and returns that same component, `complex_parse` applied to
`complex_to_str(complex_make(a, b))` succeeds, leaves nothing unread, and
returns a value identical, bit for bit, to `complex_make(a, b)`.  This holds
for any `strtod` that skips white space and any `%g` conversion, and for the
models of the two. -/
theorem complex_text_round_trip :
    (∀ (α : Type) [CDouble α] (subj : List Char → Option (α × List Char))
      (fmt : Nat → α → List Char) (a b : α),
      Accepts subj (fmt DBL_DIG (complex_make a b).a) (complex_make a b).a →
      Accepts subj (fmt DBL_DIG (complex_make a b).b) (complex_make a b).b →
      complex_parse subj (complex_to_str fmt (complex_make a b))
        = .ok (complex_make a b, [])) ∧
    (∀ a b : Float8,
      strtod strtod_subject (fmt_g DBL_DIG (complex_make a b).a)
        = some ((complex_make a b).a, []) →
      strtod strtod_subject (fmt_g DBL_DIG (complex_make a b).b)
        = some ((complex_make a b).b, []) →
      complex_parse strtod_subject (complex_to_str fmt_g (complex_make a b))
        = .ok (complex_make a b, [])) := by
  have hnil : wsRun [] := fun c hc => absurd hc (List.not_mem_nil c)
  have hsp : wsRun [' '] := by simp [wsRun]
  constructor
  · intro α _ subj fmt a b ha hb
    rw [complex_to_str_eq,
      complex_parse_frame subj _ _ [] [] [] [' '] [] [] _ _ hnil hnil hnil hsp hnil hnil ha hb,
      complex_make_idem]
  · intro a b ha hb
    rw [complex_to_str_eq,
      complex_parse_frame strtod_subject _ _ [] [] [] [' '] [] [] _ _ hnil hnil hnil hsp hnil
        hnil (strtod_accepts _ _ ha) (strtod_accepts _ _ hb),
      complex_make_idem]

/-- Witness for C3 (amended): `complex_make(3.5, -2.25)` is rendered as
`(3.5, -2.25)` and read back unchanged. -/
theorem complex_text_round_trip_witness :
    complex_to_str fmt_g
        (complex_make (Float8.ofBits 0x400C000000000000) (Float8.ofBits 0xC002000000000000))
      = "(3.5, -2.25)".toList ∧
    complex_parse strtod_subject (complex_to_str fmt_g
        (complex_make (Float8.ofBits 0x400C000000000000) (Float8.ofBits 0xC002000000000000)))
      = .ok (complex_make (Float8.ofBits 0x400C000000000000)
          (Float8.ofBits 0xC002000000000000), []) :=
  ⟨by decide, complex_text_round_trip.2 (Float8.ofBits 0x400C000000000000)
    (Float8.ofBits 0xC002000000000000) (by rfl) (by rfl)⟩

/-! ## Addition and subtraction -/

/-- C11: `complex_add` and `complex_sub` are componentwise, and subtraction
undoes addition.  For all `c` and `d`, `add(c,d) = make(c.a+d.a, c.b+d.b)` and
`sub(c,d) = make(c.a-d.a, c.b-d.b)`, with these components; the components
being exact numbers, `sub(add(c,d), d) = c` and `add(sub(c,d), d) = c`; and
`add((1,2),(3,4)) = (4,6)`. -/
theorem complex_add_sub_componentwise :
    (∀ c d : Complex ℚ,
      complex_add c d = complex_make (c.a + d.a) (c.b + d.b) ∧
      (complex_add c d).a = c.a + d.a ∧ (complex_add c d).b = c.b + d.b) ∧
    (∀ c d : Complex ℚ,
      complex_sub c d = complex_make (c.a - d.a) (c.b - d.b) ∧
      (complex_sub c d).a = c.a - d.a ∧ (complex_sub c d).b = c.b - d.b) ∧
    (∀ c d : Complex ℚ, complex_sub (complex_add c d) d = c) ∧
    (∀ c d : Complex ℚ, complex_add (complex_sub c d) d = c) ∧
    complex_add (complex_make 1 2) (complex_make 3 4) = complex_make 4 6 ∧
    complex_add (complex_make 1 2) (complex_make 3 4) = ⟨4, 6⟩ := by
  refine ⟨fun c d => ⟨rfl, ?_, ?_⟩, fun c d => ⟨rfl, ?_, ?_⟩, fun c d => ?_, fun c d => ?_,
    ?_, ?_⟩
  · simp only [complex_add, complex_make_rat]
  · simp only [complex_add, complex_make_rat]
  · simp only [complex_sub, complex_make_rat]
  · simp only [complex_sub, complex_make_rat]
  · obtain ⟨ca, cb⟩ := c
    simp only [complex_sub, complex_add, complex_make_rat, add_sub_cancel_right]
  · obtain ⟨ca, cb⟩ := c
    simp only [complex_sub, complex_add, complex_make_rat, sub_add_cancel]
  · simp only [complex_add, complex_make_rat]
    norm_num
  · simp only [complex_add, complex_make_rat]
    norm_num

/-! ## Tolerance comparator -/

/-- The macro `FPeq` in terms of the absolute difference. -/
theorem FPeq_iff (A B : ℚ) : FPeq A B = true ↔ |A - B| ≤ 1 / 1000000 := by
  simp [FPeq, EPSILON]

/-- The macro `FPlt` in terms of the difference. -/
theorem FPlt_iff (A B : ℚ) : FPlt A B = true ↔ B - A > 1 / 1000000 := by
  simp [FPlt, EPSILON]

/-- The macro `FPgt` in terms of the difference. -/
theorem FPgt_iff (A B : ℚ) : FPgt A B = true ↔ A - B > 1 / 1000000 := by
  simp [FPgt, EPSILON]

/-- C13: tolerance window of the comparator, with epsilon `1e-6`.  For all
exact numbers `A` and `B`, `FPeq(A,B)` holds exactly when `|A-B| ≤ 1e-6`;
exactly one of `FPlt(A,B)`, `FPeq(A,B)`, `FPgt(A,B)` holds; `FPne` is the
negation of `FPeq`, `FPle` that of `FPgt`, `FPge` that of `FPlt`.
`eq(1.0, 1.0+0.9e-6)` is true, `eq(1.0, 1.0+1.1e-6)` false,
`lt(1.0, 1.0+1.1e-6)` true and `lt(1.0, 1.0+0.9e-6)` false. -/
theorem comparator_tolerance_window :
    (∀ A B : ℚ, FPeq A B = true ↔ |A - B| ≤ 1 / 1000000) ∧
    (∀ A B : ℚ,
      (FPlt A B = true ∧ FPeq A B = false ∧ FPgt A B = false) ∨
      (FPlt A B = false ∧ FPeq A B = true ∧ FPgt A B = false) ∨
      (FPlt A B = false ∧ FPeq A B = false ∧ FPgt A B = true)) ∧
    (∀ A B : ℚ, FPne A B = !FPeq A B) ∧
    (∀ A B : ℚ, FPle A B = !FPgt A B) ∧
    (∀ A B : ℚ, FPge A B = !FPlt A B) ∧
    FPeq 1 (1 + 9 / 10000000) = true ∧
    FPeq 1 (1 + 11 / 10000000) = false ∧
    FPlt 1 (1 + 11 / 10000000) = true ∧
    FPlt 1 (1 + 9 / 10000000) = false := by
  refine ⟨FPeq_iff, fun A B => ?_, fun A B => ?_, fun A B => ?_, fun A B => ?_, ?_, ?_, ?_, ?_⟩
  · have hlt := FPlt_iff A B
    have heq := FPeq_iff A B
    have hgt := FPgt_iff A B
    rw [abs_le] at heq
    by_cases h1 : B - A > 1 / 1000000
    · left
      refine ⟨hlt.mpr h1, ?_, ?_⟩
      · rw [Bool.eq_false_iff]
        intro h
        have := heq.mp h
        linarith
      · rw [Bool.eq_false_iff]
        intro h
        have := hgt.mp h
        linarith
    · by_cases h2 : A - B > 1 / 1000000
      · right; right
        refine ⟨?_, ?_, hgt.mpr h2⟩
        · rw [Bool.eq_false_iff]
          exact fun h => h1 (hlt.mp h)
        · rw [Bool.eq_false_iff]
          intro h
          have := heq.mp h
          linarith
      · right; left
        refine ⟨?_, heq.mpr ⟨by linarith, by linarith⟩, ?_⟩
        · rw [Bool.eq_false_iff]
          exact fun h => h1 (hlt.mp h)
        · rw [Bool.eq_false_iff]
          exact fun h => h2 (hgt.mp h)
  · by_cases h : |A - B| ≤ EPSILON
    · simp [FPne, FPeq, h, not_lt.mpr h]
    · simp [FPne, FPeq, h, not_le.mp h]
  · by_cases h : A - B ≤ EPSILON
    · simp [FPle, FPgt, h, not_lt.mpr h]
    · simp [FPle, FPgt, h, not_le.mp h]
  · by_cases h : B - A ≤ EPSILON
    · simp [FPge, FPlt, h, not_lt.mpr h]
    · simp [FPge, FPlt, h, not_le.mp h]
  · rw [FPeq_iff, abs_le]
    constructor <;> norm_num
  · rw [Bool.eq_false_iff, ne_eq, FPeq_iff, abs_le]
    intro h
    norm_num at h
  · rw [FPlt_iff]
    norm_num
  · rw [Bool.eq_false_iff, ne_eq, FPlt_iff]
    norm_num

/-! ## Positional predicates -/

/-- C14: the four positional predicates are strict partial orders, each on one
component.  `complex_left(c,d)` holds iff `d.a - c.a > 1e-6` and
`complex_below(c,d)` iff `d.b - c.b > 1e-6`; over exact numbers each of the
four is irreflexive and transitive, hence asymmetric; and
`complex_right(c,d) = complex_left(d,c)`,
`complex_above(c,d) = complex_below(d,c)`. -/
theorem positional_strict_orders :
    (∀ c d : Complex ℚ, complex_left c d = true ↔ d.a - c.a > 1 / 1000000) ∧
    (∀ c d : Complex ℚ, complex_below c d = true ↔ d.b - c.b > 1 / 1000000) ∧
    (∀ c d : Complex ℚ, complex_right c d = complex_left d c) ∧
    (∀ c d : Complex ℚ, complex_above c d = complex_below d c) ∧
    (∀ c : Complex ℚ, complex_left c c = false ∧ complex_right c c = false ∧
      complex_below c c = false ∧ complex_above c c = false) ∧
    (∀ c d e : Complex ℚ, complex_left c d = true → complex_left d e = true →
      complex_left c e = true) ∧
    (∀ c d e : Complex ℚ, complex_right c d = true → complex_right d e = true →
      complex_right c e = true) ∧
    (∀ c d e : Complex ℚ, complex_below c d = true → complex_below d e = true →
      complex_below c e = true) ∧
    (∀ c d e : Complex ℚ, complex_above c d = true → complex_above d e = true →
      complex_above c e = true) ∧
    (∀ c d : Complex ℚ, complex_left c d = true → complex_left d c = false) ∧
    (∀ c d : Complex ℚ, complex_right c d = true → complex_right d c = false) ∧
    (∀ c d : Complex ℚ, complex_below c d = true → complex_below d c = false) ∧
    (∀ c d : Complex ℚ, complex_above c d = true → complex_above d c = false) := by
  have hl : ∀ c d : Complex ℚ, complex_left c d = true ↔ d.a - c.a > 1 / 1000000 :=
    fun c d => FPlt_iff c.a d.a
  have hb : ∀ c d : Complex ℚ, complex_below c d = true ↔ d.b - c.b > 1 / 1000000 :=
    fun c d => FPlt_iff c.b d.b
  have hr : ∀ c d : Complex ℚ, complex_right c d = true ↔ c.a - d.a > 1 / 1000000 :=
    fun c d => FPgt_iff c.a d.a
  have ha : ∀ c d : Complex ℚ, complex_above c d = true ↔ c.b - d.b > 1 / 1000000 :=
    fun c d => FPgt_iff c.b d.b
  refine ⟨hl, hb, fun c d => rfl, fun c d => rfl, fun c => ⟨?_, ?_, ?_, ?_⟩, ?_, ?_, ?_, ?_,
    ?_, ?_, ?_, ?_⟩
  · rw [Bool.eq_false_iff, ne_eq, hl]; norm_num
  · rw [Bool.eq_false_iff, ne_eq, hr]; norm_num
  · rw [Bool.eq_false_iff, ne_eq, hb]; norm_num
  · rw [Bool.eq_false_iff, ne_eq, ha]; norm_num
  · intro c d e h1 h2
    rw [hl] at h1 h2 ⊢
    linarith
  · intro c d e h1 h2
    rw [hr] at h1 h2 ⊢
    linarith
  · intro c d e h1 h2
    rw [hb] at h1 h2 ⊢
    linarith
  · intro c d e h1 h2
    rw [ha] at h1 h2 ⊢
    linarith
  · intro c d h1
    rw [hl] at h1
    rw [Bool.eq_false_iff, ne_eq, hl]
    intro h2
    linarith
  · intro c d h1
    rw [hr] at h1
    rw [Bool.eq_false_iff, ne_eq, hr]
    intro h2
    linarith
  · intro c d h1
    rw [hb] at h1
    rw [Bool.eq_false_iff, ne_eq, hb]
    intro h2
    linarith
  · intro c d h1
    rw [ha] at h1
    rw [Bool.eq_false_iff, ne_eq, ha]
    intro h2
    linarith

/-- Witness for C14: `(0,0)` is left of `(1,0)`, which is left of `(2,0)`, so
`(0,0)` is left of `(2,0)`. -/
theorem positional_strict_orders_witness :
    complex_left ⟨0, 0⟩ ⟨1, 0⟩ = true ∧ complex_left ⟨1, 0⟩ ⟨2, 0⟩ = true ∧
    complex_left ⟨0, 0⟩ ⟨2, 0⟩ = true :=
  have h1 : complex_left ⟨0, 0⟩ ⟨1, 0⟩ = true := by
    rw [complex_left, FPlt_iff]; norm_num
  have h2 : complex_left ⟨1, 0⟩ ⟨2, 0⟩ = true := by
    rw [complex_left, FPlt_iff]; norm_num
  ⟨h1, h2, positional_strict_orders.2.2.2.2.2.1 ⟨0, 0⟩ ⟨1, 0⟩ ⟨2, 0⟩ h1 h2⟩

/-! ## Equality -/

/-- C20: `complex_eq_internal` is reflexive and symmetric over exact numbers
but not transitive: with real parts `0`, `0.8e-6`, `1.6e-6` and imaginary
parts `0`, the first two values are equal, the last two are equal, and the
first and last are not.  `complex_eq` is `complex_eq_internal` and
`complex_ne` is its negation. -/
theorem complex_eq_not_transitive :
    (∀ c : Complex ℚ, complex_eq_internal c c = true) ∧
    (∀ c d : Complex ℚ, complex_eq_internal c d = complex_eq_internal d c) ∧
    (complex_eq_internal ⟨0, 0⟩ ⟨8 / 10000000, 0⟩ = true ∧
      complex_eq_internal ⟨8 / 10000000, 0⟩ ⟨16 / 10000000, 0⟩ = true ∧
      complex_eq_internal ⟨0, 0⟩ ⟨16 / 10000000, 0⟩ = false) ∧
    ¬ (∀ c d e : Complex ℚ, complex_eq_internal c d = true → complex_eq_internal d e = true →
        complex_eq_internal c e = true) ∧
    (∀ c d : Complex ℚ, complex_eq c d = complex_eq_internal c d) ∧
    (∀ c d : Complex ℚ, complex_ne c d = !complex_eq c d) := by
  have e1 : complex_eq_internal ⟨0, 0⟩ ⟨8 / 10000000, 0⟩ = true := by
    simp only [complex_eq_internal, Bool.and_eq_true, FPeq_iff, abs_le]
    norm_num
  have e2 : complex_eq_internal ⟨8 / 10000000, 0⟩ ⟨16 / 10000000, 0⟩ = true := by
    simp only [complex_eq_internal, Bool.and_eq_true, FPeq_iff, abs_le]
    norm_num
  have e3 : complex_eq_internal ⟨0, 0⟩ ⟨16 / 10000000, 0⟩ = false := by
    rw [Bool.eq_false_iff, ne_eq]
    simp only [complex_eq_internal, Bool.and_eq_true, FPeq_iff, abs_le]
    norm_num
  refine ⟨fun c => ?_, fun c d => ?_, ⟨e1, e2, e3⟩, fun h => ?_, fun c d => rfl,
    fun c d => rfl⟩
  · simp only [complex_eq_internal, Bool.and_eq_true, FPeq_iff, sub_self, abs_zero]
    norm_num
  · rw [Bool.eq_iff_iff]
    simp only [complex_eq_internal, Bool.and_eq_true, FPeq_iff, abs_sub_comm c.a d.a,
      abs_sub_comm c.b d.b]
  · have h3 := h _ _ _ e1 e2
    rw [e3] at h3
    cases h3

/-! ## Guards of the divisions -/

/-- C18: the division in `complex_div` is guarded.  For every divisor `d` that
passes the domain check, that is unless both `|d.a| ≤ 1e-6` and
`|d.b| ≤ 1e-6`, the denominator `d.a*d.a + d.b*d.b` is greater than `1e-12`,
so it is positive and not zero, and `complex_div` returns the quotients by
this denominator. -/
theorem complex_div_denominator_positive (c d : Complex ℚ)
    (h : (FPzero d.a && FPzero d.b) = false) :
    ¬ (|d.a| ≤ 1 / 1000000 ∧ |d.b| ≤ 1 / 1000000) ∧
    d.a * d.a + d.b * d.b > 1 / 1000000000000 ∧
    0 < d.a * d.a + d.b * d.b ∧
    d.a * d.a + d.b * d.b ≠ 0 ∧
    complex_div c d = .ok ⟨(c.a * d.a + c.b * d.b) / (d.a * d.a + d.b * d.b),
      (c.b * d.a - c.a * d.b) / (d.a * d.a + d.b * d.b)⟩ := by
  have hg : ¬ (|d.a| ≤ 1 / 1000000 ∧ |d.b| ≤ 1 / 1000000) := by
    intro hc
    rw [← FPzero_iff, ← FPzero_iff] at hc
    rw [hc.1, hc.2] at h
    cases h
  have hbig : d.a * d.a + d.b * d.b > 1 / 1000000000000 := by
    have hsq : ∀ t : ℚ, ¬ |t| ≤ 1 / 1000000 → t * t > 1 / 1000000000000 := by
      intro t ht
      have h1 : 1 / 1000000 < |t| := not_le.mp ht
      have h2 : |t| * |t| = t * t := abs_mul_abs_self t
      nlinarith
    by_cases ha : |d.a| ≤ 1 / 1000000
    · have hb : ¬ |d.b| ≤ 1 / 1000000 := fun hb => hg ⟨ha, hb⟩
      nlinarith [hsq d.b hb, mul_self_nonneg d.a]
    · nlinarith [hsq d.a ha, mul_self_nonneg d.b]
  refine ⟨hg, hbig, by linarith, by linarith, ?_⟩
  rw [complex_div_eq, if_neg hg]

/-- Witness for C18: the divisor `(0, 1/2)`. -/
theorem complex_div_denominator_positive_witness :
    (FPzero (0 : ℚ) && FPzero (1 / 2 : ℚ)) = false ∧
    (0 : ℚ) * 0 + 1 / 2 * (1 / 2) > 1 / 1000000000000 :=
  have h : (FPzero (0 : ℚ) && FPzero (1 / 2 : ℚ)) = false := by
    have h2 : FPzero (1 / 2 : ℚ) = false := by
      rw [Bool.eq_false_iff, ne_eq, FPzero_iff, abs_le]
      norm_num
    rw [h2, Bool.and_false]
  ⟨h, (complex_div_denominator_positive ⟨1, 1⟩ ⟨0, 1 / 2⟩ h).2.1⟩

/-- The body of `complex_dist_internal` after the swap, in terms of the
variables `x` and `y`. -/
theorem complex_dist_internal_xy (sqrt : ℚ → ℚ) (c d : Complex ℚ) :
    complex_dist_internal sqrt c d =
      if FPzero (complex_dist_xy c d).2 then (complex_dist_xy c d).1
      else sqrt (1 + (complex_dist_xy c d).2 / (complex_dist_xy c d).1
        * ((complex_dist_xy c d).2 / (complex_dist_xy c d).1)) := rfl

/-- The variables `x` and `y` of `complex_dist_internal` after the swap are
the larger and the smaller of the two coordinate differences. -/
theorem complex_dist_xy_eq (c d : Complex ℚ) :
    complex_dist_xy c d
      = (max |c.a - d.a| |c.b - d.b|, min |c.a - d.a| |c.b - d.b|) := by
  unfold complex_dist_xy
  by_cases hxy : |c.a - d.a| < |c.b - d.b|
  · simp only [if_pos hxy, min_eq_left hxy.le, max_eq_right hxy.le]
  · have hle := not_lt.mp hxy
    simp only [if_neg hxy, min_eq_right hle, max_eq_left hle]

/-- C19: the division `y / x` in `complex_dist_internal` is guarded.  For all
`c` and `d` with exact components, the function tests `FPzero(y)` and divides
`y` by `x` only when the test fails, where after the swap `x ≥ y ≥ 0`, `x` and
`y` being the two coordinate differences in some order; and whenever the test
fails, `y > 1e-6`, hence `x > 1e-6`, `x` is not zero and `0 < y/x ≤ 1`. -/
theorem complex_dist_ratio_guarded :
    (∀ (sqrt : ℚ → ℚ) (c d : Complex ℚ),
      complex_dist_internal sqrt c d =
        if FPzero (complex_dist_xy c d).2 then (complex_dist_xy c d).1
        else sqrt (1 + (complex_dist_xy c d).2 / (complex_dist_xy c d).1
          * ((complex_dist_xy c d).2 / (complex_dist_xy c d).1))) ∧
    (∀ c d : Complex ℚ,
      (complex_dist_xy c d = (|c.a - d.a|, |c.b - d.b|) ∨
        complex_dist_xy c d = (|c.b - d.b|, |c.a - d.a|)) ∧
      (complex_dist_xy c d).1 ≥ (complex_dist_xy c d).2 ∧
      (complex_dist_xy c d).2 ≥ 0) ∧
    (∀ c d : Complex ℚ, FPzero (complex_dist_xy c d).2 = false →
      (complex_dist_xy c d).2 > 1 / 1000000 ∧
      (complex_dist_xy c d).1 > 1 / 1000000 ∧
      (complex_dist_xy c d).1 ≠ 0 ∧
      0 < (complex_dist_xy c d).2 / (complex_dist_xy c d).1 ∧
      (complex_dist_xy c d).2 / (complex_dist_xy c d).1 ≤ 1) := by
  have hord : ∀ c d : Complex ℚ,
      (complex_dist_xy c d).1 ≥ (complex_dist_xy c d).2 ∧ (complex_dist_xy c d).2 ≥ 0 := by
    intro c d
    rw [complex_dist_xy_eq]
    exact ⟨le_trans (min_le_left _ _) (le_max_left _ _),
      le_min (abs_nonneg _) (abs_nonneg _)⟩
  refine ⟨complex_dist_internal_xy, fun c d => ⟨?_, hord c d⟩, fun c d h => ?_⟩
  · unfold complex_dist_xy
    by_cases hxy : |c.a - d.a| < |c.b - d.b|
    · right; simp only [if_pos hxy]
    · left; simp only [if_neg hxy]
  · obtain ⟨h1, h2⟩ := hord c d
    have hy : (complex_dist_xy c d).2 > 1 / 1000000 := by
      rw [Bool.eq_false_iff, ne_eq, FPzero_iff, abs_of_nonneg h2] at h
      exact not_le.mp h
    have hx : (complex_dist_xy c d).1 > 1 / 1000000 := lt_of_lt_of_le hy h1
    have hx0 : 0 < (complex_dist_xy c d).1 := by linarith
    refine ⟨hy, hx, ne_of_gt hx0, div_pos (by linarith) hx0, ?_⟩
    rw [div_le_one hx0]
    exact h1

/-- Witness for C19: for `(0,0)` and `(3,4)` the variables are `x = 4` and
`y = 3`, the test fails and the ratio is `3/4`. -/
theorem complex_dist_ratio_guarded_witness :
    FPzero (complex_dist_xy ⟨0, 0⟩ ⟨3, 4⟩).2 = false ∧
    complex_dist_xy ⟨0, 0⟩ ⟨3, 4⟩ = (4, 3) ∧
    (0 : ℚ) < (complex_dist_xy ⟨0, 0⟩ ⟨3, 4⟩).2 / (complex_dist_xy ⟨0, 0⟩ ⟨3, 4⟩).1 ∧
    (complex_dist_xy ⟨0, 0⟩ ⟨3, 4⟩).2 / (complex_dist_xy ⟨0, 0⟩ ⟨3, 4⟩).1 ≤ 1 :=
  have e : complex_dist_xy ⟨0, 0⟩ ⟨3, 4⟩ = (4, 3) := by
    rw [complex_dist_xy_eq]
    norm_num
  have h : FPzero (complex_dist_xy ⟨0, 0⟩ ⟨3, 4⟩).2 = false := by
    rw [e, Bool.eq_false_iff, ne_eq, FPzero_iff, abs_le]
    norm_num
  ⟨h, e, (complex_dist_ratio_guarded.2.2 ⟨0, 0⟩ ⟨3, 4⟩ h).2.2.2⟩

/-! ## Distance of a value to itself -/

/-- C15: self-distance is zero.  For every value `c` (its components exact,
hence finite, numbers) and whatever the square root function,
`complex_dist_internal(c, c) = 0`: both coordinate differences are zero, the
test `FPzero(y)` succeeds and `x = 0` is returned without a call of the
square root. -/
theorem complex_dist_self_zero :
    (∀ (sqrt : ℚ → ℚ) (c : Complex ℚ), complex_dist_internal sqrt c c = 0) ∧
    (∀ (sqrt : ℚ → ℚ) (c : Complex ℚ), complex_dist sqrt c c = 0) ∧
    (∀ c : Complex ℚ, complex_dist_xy c c = (0, 0)) ∧
    (∀ c : Complex ℚ, FPzero (complex_dist_xy c c).2 = true) := by
  have hxy : ∀ c : Complex ℚ, complex_dist_xy c c = (0, 0) := by
    intro c
    simp [complex_dist_xy]
  have hz : FPzero (0 : ℚ) = true := by
    rw [FPzero_iff]; norm_num
  have hd : ∀ (sqrt : ℚ → ℚ) (c : Complex ℚ), complex_dist_internal sqrt c c = 0 := by
    intro sqrt c
    rw [complex_dist_internal_xy, hxy c]
    simp only [hz, if_true]
  refine ⟨hd, hd, hxy, fun c => ?_⟩
  rw [hxy c]
  exact hz

/-! ## Conjugate -/

/-- Unary minus on doubles is an involution. -/
theorem Float8.neg_neg (x : Float8) : Float8.neg (Float8.neg x) = x := by
  obtain ⟨n, hn⟩ := x
  simp only [Float8.neg, Float8.mk.injEq]
  omega

/-- A double is a zero exactly when its negation is. -/
theorem Float8.eq_neg_posZero (x : Float8) :
    Float8.eq (Float8.neg x) Float8.posZero = Float8.eq x Float8.posZero := by
  rw [Bool.eq_iff_iff, Float8.eq_posZero_iff, Float8.eq_posZero_iff]
  have h1 : Float8.neg Float8.posZero = Float8.negZero := by decide
  have h2 : Float8.neg Float8.negZero = Float8.posZero := by decide
  constructor
  · rintro (h | h)
    · right; rw [← Float8.neg_neg x, h, h1]
    · left; rw [← Float8.neg_neg x, h, h2]
  · rintro (h | h)
    · right; rw [h, h1]
    · left; rw [h, h2]

/-- The components that `complex_make` stores, over bit patterns. -/
theorem complex_make_float (a b : Float8) :
    complex_make a b = ⟨if Float8.eq a Float8.posZero then Float8.posZero else a,
      if Float8.eq b Float8.posZero then Float8.posZero else b⟩ := by
  simp only [complex_make, CDouble.eqZero, CDouble.zero]
  split <;> split <;> simp_all

/-- C12: `complex_conj(c) = complex_make(c.a, -c.b)` for every `c`.  Over bit
patterns: the real part is passed to `complex_make` as it is, so that it is
kept, bit for bit, for every value produced by `complex_make` (and in general
unless it is a negative zero); the imaginary part has its sign bit flipped,
except that an imaginary part of zero, of either sign, gives positive zero;
`conj(conj(c)) = c` for every value `c` produced by `complex_make`; and
`conj(make(5,-3)) = make(5,3)`.  Over exact numbers the conjugate of `(a, b)`
is `(a, -b)`. -/
theorem complex_conj_make :
    (∀ c : Complex Float8, complex_conj c = complex_make c.a (Float8.neg c.b)) ∧
    (∀ c : Complex Float8,
      (complex_conj c).a = if Float8.eq c.a Float8.posZero then Float8.posZero else c.a) ∧
    (∀ a b : Float8, (complex_conj (complex_make a b)).a = (complex_make a b).a) ∧
    (∀ c : Complex Float8,
      (complex_conj c).b
        = if c.b = Float8.posZero ∨ c.b = Float8.negZero then Float8.posZero
          else Float8.neg c.b) ∧
    (∀ a b : Float8, complex_conj (complex_conj (complex_make a b)) = complex_make a b) ∧
    complex_conj (complex_make (Float8.ofBits 0x4014000000000000)
        (Float8.ofBits 0xC008000000000000))
      = complex_make (Float8.ofBits 0x4014000000000000) (Float8.ofBits 0x4008000000000000) ∧
    (strtod_subject ['5'] = some (Float8.ofBits 0x4014000000000000, []) ∧
      strtod_subject ['-', '3'] = some (Float8.ofBits 0xC008000000000000, []) ∧
      strtod_subject ['3'] = some (Float8.ofBits 0x4008000000000000, [])) ∧
    (∀ c : Complex ℚ, complex_conj c = ⟨c.a, -c.b⟩) ∧
    (∀ c : Complex ℚ, complex_conj (complex_conj c) = c) := by
  have hz : Float8.eq Float8.posZero Float8.posZero = true := by decide
  refine ⟨fun c => rfl, fun c => ?_, fun a b => ?_, fun c => ?_, fun a b => ?_, by decide,
    ⟨by rfl, by rfl, by rfl⟩, fun c => ?_, fun c => ?_⟩
  · simp only [complex_conj, complex_make_float]
  · simp only [complex_conj, complex_make_float]
    by_cases ha : Float8.eq a Float8.posZero = true
    · simp only [ha, if_true, hz]
    · rw [if_neg ha, if_neg ha]
  · simp only [complex_conj, complex_make_float, CDouble.neg, Float8.eq_neg_posZero]
    by_cases hb : Float8.eq c.b Float8.posZero = true
    · rw [if_pos hb, if_pos ((Float8.eq_posZero_iff c.b).mp hb)]
    · rw [if_neg hb, if_neg (fun h => hb ((Float8.eq_posZero_iff c.b).mpr h))]
  · simp only [complex_conj, complex_make_float, CDouble.neg, Float8.eq_neg_posZero]
    by_cases ha : Float8.eq a Float8.posZero = true <;>
      by_cases hb : Float8.eq b Float8.posZero = true <;>
      simp [ha, hb, hz, Float8.eq_neg_posZero, Float8.neg_neg]
  · simp only [complex_conj, complex_make_rat, CDouble.neg]
  · obtain ⟨ca, cb⟩ := c
    simp only [complex_conj, complex_make_rat, CDouble.neg, neg_neg]

/-! ## Textual codec: error reports -/

/-- The only report of `double_parse`. -/
theorem double_parse_error {α : Type} (subj : List Char → Option (α × List Char))
    (str : List Char) (e : ErrorReport) (h : double_parse subj str = .error e) :
    e = err_double := by
  unfold double_parse at h
  split at h
  · cases h; rfl
  · cases h

/-- The only report of `ensure_end_input`. -/
theorem ensure_end_input_error (str : List Char) (e : ErrorReport)
    (h : ensure_end_input str true = .error e) : e = err_end_input := by
  unfold ensure_end_input at h
  rw [if_pos rfl] at h
  split at h
  · cases h; rfl
  · cases h

/-- Every report that `complex_parse` raises is one of three. -/
theorem complex_parse_error_cases {α : Type} [CDouble α]
    (subj : List Char → Option (α × List Char)) (str : List Char) (e : ErrorReport)
    (h : complex_parse subj str = .error e) :
    e = err_complex ∨ e = err_double ∨ e = err_end_input := by
  unfold complex_parse at h
  repeat' split at h
  all_goals first
    | (cases h; exact Or.inl rfl)
    | (cases h; exact Or.inr (Or.inl (double_parse_error _ _ _ (by assumption))))
    | (cases h; exact Or.inr (Or.inr (ensure_end_input_error _ _ (by assumption))))
    | cases h

/-- C16 (evaluation of the code): text after the closing parenthesis is not
reported as invalid syntax for complex.  On `(1,2) x` the report of
`complex_parse` is the one of `ensure_end_input`, whose message is
`Could not parse temporal value`; a missing `(`, `,` or `)` is reported with
`Invalid input syntax for type complex` and a malformed number with
`Invalid input syntax for type double`; and every report of a failed parse
is one of these three. -/
theorem complex_parse_trailing_text_report :
    complex_parse strtod_subject "(1,2) x".toList = .error err_end_input ∧
    err_end_input.errmsg = "Could not parse temporal value" ∧
    err_complex.errmsg = "Invalid input syntax for type complex" ∧
    err_double.errmsg = "Invalid input syntax for type double" ∧
    err_end_input ≠ err_complex ∧ err_end_input ≠ err_double ∧
    complex_parse strtod_subject "1,2)".toList = .error err_complex ∧
    complex_parse strtod_subject "(1 2)".toList = .error err_complex ∧
    complex_parse strtod_subject "(1,2".toList = .error err_complex ∧
    complex_parse strtod_subject "(x,2)".toList = .error err_double ∧
    complex_parse strtod_subject "(1,x)".toList = .error err_double ∧
    (∀ (subj : List Char → Option (Float8 × List Char)) (str : List Char) (e : ErrorReport),
      complex_parse subj str = .error e →
      e = err_complex ∨ e = err_double ∨ e = err_end_input) := by
  refine ⟨by rfl, rfl, rfl, rfl, by decide, by decide, by rfl, by rfl, by rfl, by rfl, by rfl,
    fun subj str e h => complex_parse_error_cases subj str e h⟩

/-- Witness for C16: the report for `(1,2) x` is among the three. -/
theorem complex_parse_trailing_text_report_witness :
    complex_parse strtod_subject "(1,2) x".toList = .error err_end_input ∧
    (err_end_input = err_complex ∨ err_end_input = err_double ∨
      err_end_input = err_end_input) :=
  have h : complex_parse strtod_subject "(1,2) x".toList = .error err_end_input := by rfl
  ⟨h, complex_parse_trailing_text_report.2.2.2.2.2.2.2.2.2.2.2 strtod_subject
    "(1,2) x".toList err_end_input h⟩

/-! ## Textual codec: formatting -/

/-- C17 (counterexample): `complex_make(0.1, 1.0)`, where `0.1` is the double
with bit pattern `3FB999999999999A`, is rendered by `complex_to_str` as
`(0.1, 1)`, whereas the format `(%.17g, %.17g)` gives
`(0.10000000000000001, 1)`. -/
theorem complex_to_str_not_17_digits :
    complex_to_str fmt_g
        (complex_make (Float8.ofBits 0x3FB999999999999A) (Float8.ofBits 0x3FF0000000000000))
      = "(0.1, 1)".toList ∧
    ['('] ++ fmt_g 17 (complex_make (Float8.ofBits 0x3FB999999999999A)
          (Float8.ofBits 0x3FF0000000000000)).a ++ [',', ' ']
        ++ fmt_g 17 (complex_make (Float8.ofBits 0x3FB999999999999A)
          (Float8.ofBits 0x3FF0000000000000)).b ++ [')']
      = "(0.10000000000000001, 1)".toList ∧
    complex_to_str fmt_g
        (complex_make (Float8.ofBits 0x3FB999999999999A) (Float8.ofBits 0x3FF0000000000000))
      ≠ ['('] ++ fmt_g 17 (complex_make (Float8.ofBits 0x3FB999999999999A)
          (Float8.ofBits 0x3FF0000000000000)).a ++ [',', ' ']
        ++ fmt_g 17 (complex_make (Float8.ofBits 0x3FB999999999999A)
          (Float8.ofBits 0x3FF0000000000000)).b ++ [')'] ∧
    strtod_subject ['0', '.', '1'] = some (Float8.ofBits 0x3FB999999999999A, []) := by
  refine ⟨by decide, by decide, by decide, by rfl⟩

/-- C17 (amended): `complex_to_str` renders every value `c` as `(`, the real
part, a comma and a space, the imaginary part, `)`, each part in the general
format `%g` with `DBL_DIG = 15` significant decimal digits: the output is that
of the format `(%.15g, %.15g)`.  Here 15 is the value that the C standard
gives `DBL_DIG` for a 53-bit binary significand, the largest `q` with
`10 ^ q ≤ 2 ^ 52`. -/
theorem complex_to_str_15_digits :
    (∀ (α : Type) (fmt : Nat → α → List Char) (c : Complex α),
      complex_to_str fmt c = ['('] ++ fmt 15 c.a ++ [',', ' '] ++ fmt 15 c.b ++ [')']) ∧
    (∀ (α : Type) (fmt : Nat → α → List Char) (c : Complex α),
      complex_out fmt c = complex_to_str fmt c ∧
      complex_cast_to_text fmt c = complex_to_str fmt c) ∧
    (DBL_DIG = 15 ∧ 10 ^ DBL_DIG ≤ 2 ^ 52 ∧ 2 ^ 52 < 10 ^ (DBL_DIG + 1)) ∧
    complex_to_str fmt_g
        (complex_make (Float8.ofBits 0x400C000000000000) (Float8.ofBits 0xC002000000000000))
      = "(3.5, -2.25)".toList ∧
    complex_to_str fmt_g
        (complex_make (Float8.ofBits 0x3FD5555555555555) (Float8.ofBits 0x4415AF1D78B58C40))
      = "(0.333333333333333, 1e+20)".toList := by
  refine ⟨fun α fmt c => rfl, fun α fmt c => ⟨rfl, rfl⟩, ⟨rfl, by decide, by decide⟩,
    by decide, by decide⟩

end ComplexExt
